import Mathlib

/-!
# Value cells and flag descriptors of `vine-io/cli`

A shallow embedding of the slice value cells (`flag_int_slice.go`,
`flag_int64_slice.go`), of the flag descriptors built on them and of the
library routines they call.  Go strings are Lean strings read as their list
of characters; machine integers are `Int`/`Nat` with the 64-bit bounds
written out.
-/

namespace Cli

/-! ## Strings -/

/-- `strings.HasPrefix(s, pfx)`. -/
def HasPrefix (s pfx : String) : Bool :=
  pfx.data.isPrefixOf s.data

/-- Removal of the first occurrence of `old`, scanning from the left. -/
def removeFirst (old : List Char) : List Char → List Char
  | [] => []
  | c :: cs =>
    if old.isPrefixOf (c :: cs) then (c :: cs).drop old.length
    else c :: removeFirst old cs

/-- `strings.Replace(s, old, "", 1)`: the first occurrence of `old` is cut out. -/
def Replace1 (s old : String) : String :=
  ⟨removeFirst old.data s.data⟩

/-- `unicode.IsSpace`. -/
def isSpace (c : Char) : Bool :=
  let n := c.toNat
  (9 ≤ n && n ≤ 13) || n == 32 || n == 0x85 || n == 0xA0 || n == 0x1680 ||
  (0x2000 ≤ n && n ≤ 0x200A) || n == 0x2028 || n == 0x2029 || n == 0x202F ||
  n == 0x205F || n == 0x3000

/-- Both ends of `s` stripped of the characters satisfying `p`. -/
def trimBoth (p : Char → Bool) (s : List Char) : List Char :=
  ((s.dropWhile p).reverse.dropWhile p).reverse

/-- `strings.TrimSpace(s)`. -/
def TrimSpace (s : String) : String :=
  ⟨trimBoth isSpace s.data⟩

/-- `strings.Split(s, ",")`. -/
def SplitComma (s : String) : List String :=
  (s.data.splitOn ',').map String.mk

/-! ## `strconv.ParseInt(s, 10, 64)` -/

deriving instance DecidableEq for Except

/-- The two errors of `strconv`: `ErrSyntax` and `ErrRange`. -/
inductive NumError where
  | ErrSyntax
  | ErrRange
deriving DecidableEq, Repr

/-- Largest `uint64`. -/
def maxUint64 : Nat := 2 ^ 64 - 1

/-- The bound `maxUint64/10 + 1` above which `n * 10` overflows. -/
def cutoff10 : Nat := maxUint64 / 10 + 1

/-- The digit loop of `strconv.ParseUint` in base 10 on 64 bits: `n` is the
`uint64` accumulator.  A byte that is no decimal digit (letters included:
their value is at least the base) is a syntax error; the two overflow tests
return a range error at once. -/
def parseUintLoop : List Char → Nat → Except NumError Nat
  | [], n => .ok n
  | c :: cs, n =>
    if c.isDigit then
      let d := c.toNat - 48
      if n ≥ cutoff10 then .error .ErrRange
      else
        let n10 := (n * 10) % 2 ^ 64
        let n1 := (n10 + d) % 2 ^ 64
        if n1 < n10 ∨ n1 > maxUint64 then .error .ErrRange
        else parseUintLoop cs n1
    else .error .ErrSyntax

/-- `strconv.ParseUint(s, 10, 64)`. -/
def ParseUint (s : List Char) : Except NumError Nat :=
  if s = [] then .error .ErrSyntax else parseUintLoop s 0

/-- `strconv.ParseInt(s, 10, 64)`: an optional sign, then `ParseUint`, then
the signed range test against `1 << 63`. -/
def ParseInt (s : String) : Except NumError Int :=
  match s.data with
  | [] => .error .ErrSyntax
  | c :: cs =>
    let neg := c = '-'
    let rest := if c = '+' ∨ c = '-' then cs else c :: cs
    match ParseUint rest with
    | .error .ErrSyntax => .error .ErrSyntax
    | .error .ErrRange => .error .ErrRange
    | .ok un =>
      if ¬ neg ∧ un ≥ 2 ^ 63 then .error .ErrRange
      else if neg ∧ un > 2 ^ 63 then .error .ErrRange
      else .ok (if neg then - (un : Int) else (un : Int))

/-- The conversion `int(tmp)` of an `int64`, with `int` 64 bits wide. -/
def toInt (x : Int) : Int :=
  (x + 2 ^ 63) % 2 ^ 64 - 2 ^ 63

/-! ### Base-10 integer literals, as the specification reads them -/

/-- The number written by the decimal digits `ds`, continuing from `n`. -/
def decimalFrom (n : Nat) (ds : List Char) : Nat :=
  ds.foldl (fun a c => a * 10 + (c.toNat - 48)) n

/-- The number written by the decimal digits `ds`. -/
def decimalValue (ds : List Char) : Nat :=
  decimalFrom 0 ds

/-- A literal split into its sign (`true`: negative) and what follows it. -/
def signSplit : List Char → Bool × List Char
  | '-' :: r => (true, r)
  | '+' :: r => (false, r)
  | r => (false, r)

/-- A base-10 integer literal: an optional sign, then one or more decimal
digits. -/
def isIntLiteral (s : String) : Bool :=
  let ds := (signSplit s.data).2
  !ds.isEmpty && ds.all Char.isDigit

/-- The integer a base-10 literal denotes. -/
def literalValue (s : String) : Int :=
  let p := signSplit s.data
  if p.1 then - (decimalValue p.2 : Int) else (decimalValue p.2 : Int)

/-- The signed 64-bit range. -/
def inInt64 (v : Int) : Prop :=
  -2 ^ 63 ≤ v ∧ v < 2 ^ 63

instance (v : Int) : Decidable (inInt64 v) := by
  unfold inInt64; infer_instance

/-! ## `encoding/json` on integer slices -/

/-- A Go slice of integers: `none` is the nil slice. -/
abbrev GoSlice := Option (List Int)

/-- The elements of a slice; the nil slice has none. -/
def GoSlice.elems (s : GoSlice) : List Int :=
  s.getD []

/-- Decimal digits of `n`, most significant first, `fuel` bounding their number. -/
def formatBits : Nat → Nat → List Char → List Char
  | 0, _, acc => acc
  | fuel + 1, n, acc =>
    if n < 10 then Char.ofNat (48 + n) :: acc
    else formatBits fuel (n / 10) (Char.ofNat (48 + n % 10) :: acc)

/-- `strconv.FormatInt(i, 10)` for a 64-bit `i` (at most 20 digits). -/
def FormatInt (i : Int) : List Char :=
  if i < 0 then '-' :: formatBits 20 i.natAbs [] else formatBits 20 i.natAbs []

/-- `json.Marshal` of an integer slice: `null` for the nil slice, else the
bracketed, comma-separated decimal elements. -/
def jsonMarshal : GoSlice → String
  | none => "null"
  | some xs => ⟨'[' :: ([','].intercalate (xs.map FormatInt)) ++ [']']⟩

/-- JSON insignificant whitespace. -/
def isJSONSpace (c : Char) : Bool :=
  c = ' ' || c = '\t' || c = '\r' || c = '\n'

/-- The JSON grammar of an integer number: `-?(0|[1-9][0-9]*)`. -/
def isJSONInt (s : List Char) : Bool :=
  let ds := if s.head? = some '-' then s.tail else s
  match ds with
  | [] => false
  | c :: r => if c = '0' then r.isEmpty else (c :: r).all Char.isDigit

/-- One array element decoded into an `int`: a JSON integer that
`strconv.ParseInt` accepts. -/
def decodeElem (s : List Char) : Option Int :=
  if isJSONInt s then
    match ParseInt ⟨s⟩ with
    | .ok v => some v
    | .error _ => none
  else none

/-- The elements between the commas of an array, each decoded after its
surrounding whitespace is dropped; `none` as soon as one is no integer. -/
def decodeElems : List (List Char) → Option (List Int)
  | [] => some []
  | seg :: rest =>
    match decodeElem (trimBoth isJSONSpace seg), decodeElems rest with
    | some v, some vs => some (v :: vs)
    | _, _ => none

/-- The decoder on the documents it stores exactly: `null` gives the nil
slice, `[]` the empty slice, an array of integers its elements.  `none`: the
document is of another shape. -/
def decodeIntArray (s : List Char) : Option GoSlice :=
  let t := trimBoth isJSONSpace s
  if t = ['n', 'u', 'l', 'l'] then some none
  else
    match t with
    | '[' :: r =>
      match r.reverse with
      | ']' :: innerRev =>
        let inner := trimBoth isJSONSpace innerRev.reverse
        if inner = [] then some (some [])
        else (decodeElems (inner.splitOn ',')).map some
      | _ => none
    | _ => none

/-- What the program is linked against and does not define in the files at
hand. -/
structure Runtime where
  /-- The package variable `slPfx`, the reserved serialization prefix. -/
  slPfx : String
  /-- The slice `json.Unmarshal` leaves behind for a document that is neither
  `null` nor an array of integers (malformed input, other JSON types, partly
  decoded arrays), given the document and the slice before the call. -/
  unmarshalOther : String → GoSlice → GoSlice
  /-- The helper `flagFromEnvOrFile(envVars, filePath)`: the resolved value and
  whether one was found. -/
  flagFromEnvOrFile : List String → String → String × Bool
  /-- The helper `flagNames(name, aliases)` behind every `Names()`. -/
  flagNames : String → List String → List String

/-- `json.Unmarshal([]byte(doc), &slice)`, its error dropped as at the call
site. -/
def jsonUnmarshal (rt : Runtime) (doc : String) (old : GoSlice) : GoSlice :=
  match decodeIntArray doc.data with
  | some s => s
  | none => rt.unmarshalOther doc old

/-! ## `IntSlice` / `Int64Slice` -/

/-- The value cell `IntSlice`; `Int64Slice` is the same record over `int64`. -/
structure IntSlice where
  slice : GoSlice
  hasBeenSet : Bool
deriving DecidableEq, Repr

/-- `Int64Slice` has the code of `IntSlice` with `int64` for `int`. -/
abbrev Int64Slice := IntSlice

/-- `NewIntSlice(defaults...)`. -/
def NewIntSlice (defaults : List Int) : IntSlice :=
  { slice := some defaults, hasBeenSet := false }

/-- `NewInt64Slice(defaults...)`. -/
abbrev NewInt64Slice := NewIntSlice

/-- `(*IntSlice).Set(value)`: the cell afterwards and the returned error
(`none` is `nil`). -/
def IntSlice.Set (rt : Runtime) (f : IntSlice) (value : String) : IntSlice × Option NumError :=
  let f1 : IntSlice := if ¬ f.hasBeenSet then { slice := some [], hasBeenSet := true } else f
  if HasPrefix value rt.slPfx then
    ({ slice := jsonUnmarshal rt (Replace1 value rt.slPfx) f1.slice, hasBeenSet := true }, none)
  else
    match ParseInt value with
    | .error e => (f1, some e)
    | .ok tmp => ({ f1 with slice := some (f1.slice.elems ++ [toInt tmp]) }, none)

/-- `(*IntSlice).Serialize()`. -/
def IntSlice.Serialize (rt : Runtime) (f : IntSlice) : String :=
  rt.slPfx ++ jsonMarshal f.slice

/-- `(*IntSlice).Value()`. -/
def IntSlice.Value (f : IntSlice) : GoSlice :=
  f.slice

/-- `Set` called with each of `values` in turn: the cell after the calls and
the error each call returned. -/
def IntSlice.SetEach (rt : Runtime) (f : IntSlice) : List String → IntSlice × List (Option NumError)
  | [] => (f, [])
  | v :: vs =>
    let r := f.Set rt v
    let rs := IntSlice.SetEach rt r.1 vs
    (rs.1, r.2 :: rs.2)

/-- The serialization prefix is reserved: no base-10 integer literal begins
with it. -/
def Runtime.Reserved (rt : Runtime) : Prop :=
  ∀ s : String, HasPrefix s rt.slPfx = true → isIntLiteral s = false

/-! ## The heap of value cells and `flag.FlagSet` -/

/-- How a call ends: it returns, or the goroutine panics. -/
inductive Outcome (α : Type) where
  | returned (a : α)
  | panicked
deriving DecidableEq, Repr

/-- The address of a heap cell; a Go pointer is `some` address or `none` (nil). -/
abbrev Ptr := Nat

/-- The memory `Apply` works on: the value cells by address, and the formal
flags of the `flag.FlagSet` (name and the pointer held as `flag.Value`), in
order of registration. -/
structure Store (κ : Type) where
  heap : List κ
  formal : List (String × Ptr)
deriving DecidableEq, Repr

/-- A new cell: its address and the store holding it. -/
def Store.alloc {κ : Type} (st : Store κ) (c : κ) : Ptr × Store κ :=
  (st.heap.length, { st with heap := st.heap ++ [c] })

/-- `set.Lookup(name)`: the pointer registered under `name`. -/
def Store.Lookup {κ : Type} (st : Store κ) (name : String) : Option Ptr :=
  st.formal.lookup name

/-- `strings.Contains(name, "=")`. -/
def containsEq (name : String) : Bool :=
  name.data.contains '='

/-- `set.Var(value, name, usage)`.  The library panics on a name that begins
with `-` or contains `=`, on a name already defined, and, when it asks the
value for its default text with `value.String()`, on a nil value: the
`String` methods of the cells read a field of their receiver. -/
def Store.Var {κ : Type} (st : Store κ) (value : Option Ptr) (name : String) :
    Outcome (Store κ) :=
  if HasPrefix name "-" || containsEq name then .panicked
  else
    match value with
    | none => .panicked
    | some p =>
      if (st.Lookup name).isSome then .panicked
      else .returned { st with formal := st.formal ++ [(name, p)] }

/-- The error `Apply` builds with `fmt.Errorf("could not parse %q as ... value
for flag %s: %v", val, f.Name, err)`: its three arguments. -/
structure ApplyError (ε : Type) where
  val : String
  flagName : String
  err : ε
deriving DecidableEq, Repr

/-! ## `IntSliceFlag` / `Int64SliceFlag` -/

/-- The descriptor `IntSliceFlag`; `Int64SliceFlag` has the same fields with
`*Int64Slice` for `*IntSlice`. -/
structure IntSliceFlag where
  Name : String
  Aliases : List String
  Usage : String
  EnvVars : List String
  FilePath : String
  Required : Bool
  Hidden : Bool
  Value : Option Ptr
  DefaultText : String
  HasBeenSet : Bool
deriving DecidableEq, Repr

/-- `Int64SliceFlag` has the code of `IntSliceFlag`. -/
abbrev Int64SliceFlag := IntSliceFlag

/-- `(*IntSliceFlag).IsSet()`. -/
def IntSliceFlag.IsSet (f : IntSliceFlag) : Bool :=
  f.HasBeenSet

/-- `(*IntSliceFlag).Names()`. -/
def IntSliceFlag.Names (rt : Runtime) (f : IntSliceFlag) : List String :=
  rt.flagNames f.Name f.Aliases

/-- The loop `for _, s := range strings.Split(val, ",")` of `Apply`, run on
the cell `f.Value` points to: `Set(strings.TrimSpace(s))` for each segment,
left at the first error. -/
def setSegments (rt : Runtime) (cell : IntSlice) : List String → IntSlice × Option NumError
  | [] => (cell, none)
  | s :: rest =>
    match cell.Set rt (TrimSpace s) with
    | (c, some e) => (c, some e)
    | (c, none) => setSegments rt c rest

/-- The loop `for _, name := range f.Names()` of `Apply`: a descriptor whose
`Value` is not nil is given a new zero cell, then `set.Var(f.Value, name,
f.Usage)` registers `f.Value`. -/
def IntSliceFlag.register (f : IntSliceFlag) (st : Store IntSlice) :
    List String → Outcome (IntSliceFlag × Store IntSlice)
  | [] => .returned (f, st)
  | name :: rest =>
    let fs : IntSliceFlag × Store IntSlice :=
      match f.Value with
      | some _ =>
        let a := st.alloc { slice := none, hasBeenSet := false }
        ({ f with Value := some a.1 }, a.2)
      | none => (f, st)
    match fs.2.Var fs.1.Value name with
    | .panicked => .panicked
    | .returned st2 => IntSliceFlag.register fs.1 st2 rest

/-- `(*IntSliceFlag).Apply(set)`: the returned error (`none` is `nil`), the
descriptor and the store afterwards.  The cell made by `f.Value =
&IntSlice{}` is reachable through `f.Value` alone while the segments are
set, and enters the heap as those calls leave it. -/
def IntSliceFlag.Apply (rt : Runtime) (f : IntSliceFlag) (st : Store IntSlice) :
    Outcome (Option (ApplyError NumError) × IntSliceFlag × Store IntSlice) :=
  let r := rt.flagFromEnvOrFile f.EnvVars f.FilePath
  let go (f1 : IntSliceFlag) (st1 : Store IntSlice) :
      Outcome (Option (ApplyError NumError) × IntSliceFlag × Store IntSlice) :=
    match IntSliceFlag.register f1 st1 (f1.Names rt) with
    | .panicked => .panicked
    | .returned (f2, st2) => .returned (none, f2, st2)
  if r.2 && r.1 != "" then
    let cell := setSegments rt { slice := none, hasBeenSet := false } (SplitComma r.1)
    let a := st.alloc cell.1
    let f1 := { f with Value := some a.1 }
    match cell.2 with
    | some e => .returned (some { val := r.1, flagName := f.Name, err := e }, f1, a.2)
    | none => go { f1 with HasBeenSet := true } a.2
  else go f st

/-- `lookupIntSlice(name, set)`: the slice of the cell registered under
`name`, nil when there is none. -/
def lookupIntSlice (st : Store IntSlice) (name : String) : GoSlice :=
  match st.Lookup name with
  | some p =>
    match st.heap[p]? with
    | some c => c.Value
    | none => none
  | none => none

/-- `set.Set(name, value)` of the flag package, as far as the cell goes: the
`Set` of the cell registered under `name` (no change for an unknown name). -/
def Store.SetByName (rt : Runtime) (st : Store IntSlice) (name value : String) :
    Store IntSlice :=
  match st.Lookup name with
  | some p =>
    match st.heap[p]? with
    | some c => { st with heap := st.heap.set p (c.Set rt value).1 }
    | none => st
  | none => st

/-! ## `GenericFlag` -/

/-- A type implementing the interface `Generic`: its method `Set` on a state
of type `σ`, returning the new state and the error (`none` is `nil`). -/
structure GenericImpl (σ ε : Type) where
  Set : σ → String → σ × Option ε

/-- The object behind a `Generic` value: its state, and the arguments of the
`Set` calls it has received, oldest first. -/
structure GenericCell (σ : Type) where
  state : σ
  calls : List String
deriving DecidableEq, Repr

/-- The descriptor `GenericFlag`; `Value` is the interface value, `none` for
the nil interface. -/
structure GenericFlag where
  Name : String
  Aliases : List String
  Usage : String
  EnvVars : List String
  FilePath : String
  Required : Bool
  Hidden : Bool
  Value : Option Ptr
  DefaultText : String
  HasBeenSet : Bool
deriving DecidableEq, Repr

/-- `(*GenericFlag).IsSet()`. -/
def GenericFlag.IsSet (f : GenericFlag) : Bool :=
  f.HasBeenSet

/-- `(*GenericFlag).Names()`. -/
def GenericFlag.Names (rt : Runtime) (f : GenericFlag) : List String :=
  rt.flagNames f.Name f.Aliases

/-- The loop `for _, name := range f.Names()` of `GenericFlag.Apply`:
`set.Var(f.Value, name, f.Usage)` for each name. -/
def GenericFlag.register {σ : Type} (f : GenericFlag) (st : Store (GenericCell σ)) :
    List String → Outcome (Store (GenericCell σ))
  | [] => .returned st
  | name :: rest =>
    match st.Var f.Value name with
    | .panicked => .panicked
    | .returned st2 => GenericFlag.register f st2 rest

/-- `(*GenericFlag).Apply(set)`.  A method call through a nil interface, or
through a pointer to no object, panics. -/
def GenericFlag.Apply {σ ε : Type} (rt : Runtime) (impl : GenericImpl σ ε) (f : GenericFlag)
    (st : Store (GenericCell σ)) :
    Outcome (Option (ApplyError ε) × GenericFlag × Store (GenericCell σ)) :=
  let r := rt.flagFromEnvOrFile f.EnvVars f.FilePath
  let go (f1 : GenericFlag) (st1 : Store (GenericCell σ)) :
      Outcome (Option (ApplyError ε) × GenericFlag × Store (GenericCell σ)) :=
    match GenericFlag.register f1 st1 (f1.Names rt) with
    | .panicked => .panicked
    | .returned st2 => .returned (none, f1, st2)
  if r.2 && r.1 != "" then
    match f.Value with
    | none => .panicked
    | some p =>
      match st.heap[p]? with
      | none => .panicked
      | some c =>
        let res := impl.Set c.state r.1
        let st1 : Store (GenericCell σ) :=
          { st with heap := st.heap.set p { state := res.1, calls := c.calls ++ [r.1] } }
        match res.2 with
        | some e => .returned (some { val := r.1, flagName := f.Name, err := e }, f, st1)
        | none => go { f with HasBeenSet := true } st1
  else go f st

/-! ## The precedence merger

The merger, the integer flag it is tested on and the file-format adapters
are declared outside the files at hand (only their tests are there): this
section follows §3, §4.2, §4.3 and §4.4 of the specification. -/

/-- Modelled from the spec: a decoded structured document, the view an Input
Source Context gives (§3, §6).  A number is written `whole.frac` in decimal
digits; an object is its fields in order. -/
inductive Doc where
  | num (whole : Int) (frac : List Nat)
  | str (s : String)
  | bool (b : Bool)
  | obj (fields : List (String × Doc))

/-- Modelled from the spec: the segments of a dotted key path, `top.test`
giving `top`, `test` (§3). -/
def keyPath (name : String) : List String :=
  (name.data.splitOn '.').map String.mk

/-- Modelled from the spec: nested lookup, one segment per object level,
segments matched exactly (§3). -/
def Doc.get : Doc → List String → Option Doc
  | d, [] => some d
  | .obj fields, k :: ks =>
    match fields.lookup k with
    | some d => Doc.get d ks
    | none => none
  | _, _ :: _ => none

/-- Modelled from the spec: the query of the Input Source Context by a flag's
name; `none` is the absent key (§4.4 step 2). -/
def Doc.lookup (doc : Doc) (name : String) : Option Doc :=
  doc.get (keyPath name)

/-- Modelled from the spec: the numeric coercion for integer flags, a number
with zero fractional part and nothing else (§4.4). -/
def Doc.asInt : Doc → Option Int
  | .num whole frac => if frac.all (fun d => d == 0) then some whole else none
  | _ => none

/-- Modelled from the spec: the fatal errors of flag resolution (§7), a raw
string that does not parse and a file value of the wrong type. -/
inductive ResolveError where
  | ParseError (flagName raw : String)
  | TypeMismatchError (flagName : String)
deriving DecidableEq, Repr

/-- Modelled from the spec: the descriptor of an integer flag (§3), its value
cell holding the declared default until something sets it. -/
structure IntFlag where
  Name : String
  EnvVars : List String
  FilePath : String
  Value : Int
  HasBeenSet : Bool
deriving DecidableEq, Repr

/-- Modelled from the spec: step 1 of `Apply` (§4.2) for an integer flag.  A
resolved value that is found and not empty is parsed as a decimal integer and
set, and `HasBeenSet` becomes true; a parse failure is fatal. -/
def IntFlag.Apply (resolve : List String → String → String × Bool) (d : IntFlag) :
    Except ResolveError IntFlag :=
  let r := resolve d.EnvVars d.FilePath
  if r.2 && r.1 != "" then
    match ParseInt r.1 with
    | .ok v => .ok { d with Value := v, HasBeenSet := true }
    | .error _ => .error (.ParseError d.Name r.1)
  else .ok d

/-- Modelled from the spec: the tokenizer's part (§4.2): a command-line token
for the flag calls `Set` again, after `Apply`, and the flag counts as set
(§4.4 step 1); no token leaves the descriptor alone. -/
def IntFlag.ParseToken (token : Option String) (d : IntFlag) : Except ResolveError IntFlag :=
  match token with
  | none => .ok d
  | some raw =>
    match ParseInt raw with
    | .ok v => .ok { d with Value := v, HasBeenSet := true }
    | .error _ => .error (.ParseError d.Name raw)

/-- Modelled from the spec: the merger on one descriptor (§4.4): a descriptor
already set is skipped; an absent key is skipped; a present value is
converted and set, a value of the wrong type is fatal; `HasBeenSet` is not
marked. -/
def IntFlag.ApplyInputSourceValue (doc : Doc) (d : IntFlag) : Except ResolveError IntFlag :=
  if d.HasBeenSet then .ok d
  else
    match doc.lookup d.Name with
    | none => .ok d
    | some v =>
      match v.asInt with
      | some n => .ok { d with Value := n }
      | none => .error (.TypeMismatchError d.Name)

/-- Modelled from the spec: the merger over the descriptors of a command, in
order, the first fatal error aborting it (§4.4, §7). -/
def InitInputSourceWithContext (doc : Doc) : List IntFlag → Except ResolveError (List IntFlag)
  | [] => .ok []
  | d :: ds =>
    match d.ApplyInputSourceValue doc with
    | .error e => .error e
    | .ok d1 =>
      match InitInputSourceWithContext doc ds with
      | .error e => .error e
      | .ok ds1 => .ok (d1 :: ds1)

/-- Modelled from the spec: one flag across one invocation (§4.4, state
machine): `Apply`, then the command-line token, then the merger. -/
def IntFlag.Resolve (resolve : List String → String → String × Bool) (token : Option String)
    (doc : Doc) (d : IntFlag) : Except ResolveError IntFlag :=
  match d.Apply resolve with
  | .error e => .error e
  | .ok d1 =>
    match d1.ParseToken token with
    | .error e => .error e
    | .ok d2 => d2.ApplyInputSourceValue doc

/-- The document `{"test": 15}` of the tests. -/
def simpleJSON : Doc :=
  .obj [("test", .num 15 [])]

/-- The document `{"top": {"test": 15}}` of the tests. -/
def nestedJSON : Doc :=
  .obj [("top", .obj [("test", .num 15 [])])]

/-! ## The remaining methods of the flag descriptors -/

/-- `fmt.Sprintf("%#v", s)` for a slice `s` whose element type is written
`ty`: `[]int(nil)` for the nil slice, else the elements in braces. -/
def goSyntaxSlice (ty : String) : GoSlice → String
  | none => "[]" ++ ty ++ "(nil)"
  | some xs => "[]" ++ ty ++ "\x7b" ++ ⟨[',', ' '].intercalate (xs.map FormatInt)⟩ ++ "\x7d"

/-- `(*IntSlice).String()`. -/
def IntSlice.String (f : IntSlice) : String :=
  goSyntaxSlice "int" f.slice

/-- `(*Int64Slice).String()`. -/
def Int64Slice.String (f : Int64Slice) : String :=
  goSyntaxSlice "int64" f.slice

/-- `(*IntSliceFlag).TakesValue()`. -/
def IntSliceFlag.TakesValue (_ : IntSliceFlag) : Bool :=
  true

/-- `(*IntSliceFlag).GetValue()`. -/
def IntSliceFlag.GetValue (_ : IntSliceFlag) : String :=
  ""

/-- `(*IntSliceFlag).IsRequired()`. -/
def IntSliceFlag.IsRequired (f : IntSliceFlag) : Bool :=
  f.Required

/-- `(*IntSliceFlag).GetUsage()`. -/
def IntSliceFlag.GetUsage (f : IntSliceFlag) : String :=
  f.Usage

/-- `(*GenericFlag).TakesValue()`. -/
def GenericFlag.TakesValue (_ : GenericFlag) : Bool :=
  false

/-- `(*GenericFlag).GetValue()`. -/
def GenericFlag.GetValue (_ : GenericFlag) : String :=
  ""

/-- `strings.Contains(s, sub)`. -/
def Contains (s sub : String) : Prop :=
  sub.data <:+: s.data

instance (s sub : String) : Decidable (Contains s sub) := by
  unfold Contains; infer_instance

/-- The text of the error `Apply` returns, `fmt.Errorf("could not parse %q as
<kind>value for flag %s: %v", val, f.Name, err)`.  `quote` is the verb `%q`
(`strconv.Quote`), `errText` the verb `%v` on the error (`err.Error()`),
`kind` the words the format has between `as` and `value`: none for a
generic flag, `int slice `, `int64 slice ` or `timestamp slice `. -/
def ApplyError.Error {ε : Type} (quote : String → String) (errText : ε → String)
    (kind : String) (e : ApplyError ε) : String :=
  "could not parse " ++ quote e.val ++ " as " ++ kind ++ "value for flag " ++ e.flagName
    ++ ": " ++ errText e.err

/-! ## `Timestamp` and `TimestampFlag` -/

/-- The package `time`, as far as the cells use it: `time.Parse(layout,
value)` over the type `τ` of the values of `time.Time`, its error as text. -/
structure TimeLib (τ : Type) where
  Parse : String → String → Except String τ

/-- The value cell `Timestamp`; `timestamp` is a pointer, `none` when nil. -/
structure Timestamp (τ : Type) where
  timestamp : Option τ
  hasBeenSet : Bool
  layout : String
deriving DecidableEq, Repr

/-- `NewTimestamp(timestamp)`. -/
def NewTimestamp {τ : Type} (timestamp : τ) : Timestamp τ :=
  { timestamp := some timestamp, hasBeenSet := false, layout := "" }

/-- `(*Timestamp).SetTimestamp(value)`. -/
def Timestamp.SetTimestamp {τ : Type} (t : Timestamp τ) (value : τ) : Timestamp τ :=
  if ¬ t.hasBeenSet then { t with timestamp := some value, hasBeenSet := true } else t

/-- `(*Timestamp).SetLayout(layout)`. -/
def Timestamp.SetLayout {τ : Type} (t : Timestamp τ) (layout : String) : Timestamp τ :=
  { t with layout := layout }

/-- `(*Timestamp).Set(value)`: the cell afterwards and the returned error. -/
def Timestamp.Set {τ : Type} (lib : TimeLib τ) (t : Timestamp τ) (value : String) :
    Timestamp τ × Option String :=
  match lib.Parse t.layout value with
  | .error e => (t, some e)
  | .ok v => ({ t with timestamp := some v, hasBeenSet := true }, none)

/-- `(*Timestamp).Value()`. -/
def Timestamp.Value {τ : Type} (t : Timestamp τ) : Option τ :=
  t.timestamp

/-- The descriptor `TimestampFlag`. -/
structure TimestampFlag where
  Name : String
  Aliases : List String
  Usage : String
  EnvVars : List String
  FilePath : String
  Required : Bool
  Hidden : Bool
  Value : Option Ptr
  DefaultText : String
  HasBeenSet : Bool
deriving DecidableEq, Repr

/-- `(*TimestampFlag).IsSet()`. -/
def TimestampFlag.IsSet (f : TimestampFlag) : Bool :=
  f.HasBeenSet

/-- `(*TimestampFlag).Names()`. -/
def TimestampFlag.Names (rt : Runtime) (f : TimestampFlag) : List String :=
  rt.flagNames f.Name f.Aliases

/-- `(*TimestampFlag).TakesValue()`. -/
def TimestampFlag.TakesValue (_ : TimestampFlag) : Bool :=
  true

/-- `(*TimestampFlag).GetValue()`. -/
def TimestampFlag.GetValue (_ : TimestampFlag) : String :=
  ""

/-- The loop `for _, s := range strings.Split(val, ",")` of
`TimestampFlag.Apply`: `Set(strings.TrimSpace(s))` for each segment, left at
the first error. -/
def setTimestampSegments {τ : Type} (lib : TimeLib τ) (cell : Timestamp τ) :
    List String → Timestamp τ × Option String
  | [] => (cell, none)
  | s :: rest =>
    match cell.Set lib (TrimSpace s) with
    | (c, some e) => (c, some e)
    | (c, none) => setTimestampSegments lib c rest

/-- The loop `for _, name := range f.Names()` of `TimestampFlag.Apply`: a
descriptor whose `Value` is not nil is given a new zero cell, then
`set.Var(f.Value, name, f.Usage)` registers `f.Value`. -/
def TimestampFlag.register {τ : Type} (f : TimestampFlag) (st : Store (Timestamp τ)) :
    List String → Outcome (TimestampFlag × Store (Timestamp τ))
  | [] => .returned (f, st)
  | name :: rest =>
    let fs : TimestampFlag × Store (Timestamp τ) :=
      match f.Value with
      | some _ =>
        let a := st.alloc { timestamp := none, hasBeenSet := false, layout := "" }
        ({ f with Value := some a.1 }, a.2)
      | none => (f, st)
    match fs.2.Var fs.1.Value name with
    | .panicked => .panicked
    | .returned st2 => TimestampFlag.register fs.1 st2 rest

/-- `(*TimestampFlag).Apply(set)`.  As in `IntSliceFlag.Apply`, the cell made
by `f.Value = &Timestamp{}` enters the heap as the `Set` calls leave it. -/
def TimestampFlag.Apply {τ : Type} (rt : Runtime) (lib : TimeLib τ) (f : TimestampFlag)
    (st : Store (Timestamp τ)) :
    Outcome (Option (ApplyError String) × TimestampFlag × Store (Timestamp τ)) :=
  let r := rt.flagFromEnvOrFile f.EnvVars f.FilePath
  let go (f1 : TimestampFlag) (st1 : Store (Timestamp τ)) :
      Outcome (Option (ApplyError String) × TimestampFlag × Store (Timestamp τ)) :=
    match TimestampFlag.register f1 st1 (f1.Names rt) with
    | .panicked => .panicked
    | .returned (f2, st2) => .returned (none, f2, st2)
  if r.2 && r.1 != "" then
    let cell := setTimestampSegments lib
      { timestamp := none, hasBeenSet := false, layout := "" } (SplitComma r.1)
    let a := st.alloc cell.1
    let f1 := { f with Value := some a.1 }
    match cell.2 with
    | some e => .returned (some { val := r.1, flagName := f.Name, err := e }, f1, a.2)
    | none => go { f1 with HasBeenSet := true } a.2
  else go f st

/-- What `IsSet()` reports once `Apply` has returned without error; `none`
when `Apply` returned an error or panicked. -/
def IntSliceFlag.isSetAfter
    (o : Outcome (Option (ApplyError NumError) × IntSliceFlag × Store IntSlice)) : Option Bool :=
  match o with
  | .returned (none, f2, _) => some f2.IsSet
  | _ => none

/-- `Apply` run under `rt1` and, when that returned without error, run again
under `rt2` on the descriptor and the heap as the first run left them, with a
new flag set. -/
def IntSliceFlag.ApplyTwice (rt1 rt2 : Runtime) (f : IntSliceFlag) (st : Store IntSlice) :
    Outcome (Option (ApplyError NumError) × IntSliceFlag × Store IntSlice) :=
  match f.Apply rt1 st with
  | .returned (none, f1, st1) => f1.Apply rt2 { st1 with formal := [] }
  | o => o

/-- `lookupTimestamp(name, set)`: the pointer held by the cell registered
under `name`, nil when there is none. -/
def lookupTimestamp {τ : Type} (st : Store (Timestamp τ)) (name : String) : Option τ :=
  match st.Lookup name with
  | some p =>
    match st.heap[p]? with
    | some c => c.Value
    | none => none
  | none => none

/-! ## The map-backed input source

`MapInputSource` is declared outside the files at hand (its test is there):
this section follows §4.4 and §6 of the specification. -/

/-- Modelled from the spec: the units of the duration grammar, in
nanoseconds. -/
def durationUnit (u : String) : Option Nat :=
  if u = "ns" then some 1
  else if u = "us" ∨ u = "µs" ∨ u = "μs" then some 1000
  else if u = "ms" then some 1000000
  else if u = "s" then some 1000000000
  else if u = "m" then some 60000000000
  else if u = "h" then some 3600000000000
  else none

/-- Modelled from the spec: the groups of a duration string, each a whole
decimal count followed by a unit, summed in nanoseconds from `acc`; `fuel`
bounds the number of groups. -/
def durationGroups : Nat → List Char → Nat → Option Nat
  | 0, _, _ => none
  | fuel + 1, s, acc =>
    let ds := s.takeWhile Char.isDigit
    let r := s.dropWhile Char.isDigit
    let u := r.takeWhile (fun c => !(c.isDigit || c = '.'))
    let rest := r.dropWhile (fun c => !(c.isDigit || c = '.'))
    if ds.isEmpty then none
    else
      match durationUnit ⟨u⟩ with
      | none => none
      | some k =>
        if rest.isEmpty then some (acc + decimalValue ds * k)
        else durationGroups fuel rest (acc + decimalValue ds * k)

/-- Modelled from the spec: the duration grammar (Go-style duration strings)
on whole counts: an optional sign, then `0` or one or more groups of a
decimal count and a unit among `ns`, `us`, `ms`, `s`, `m`, `h`, the total
within 64 bits.  A string with a decimal point is read by `fractional`. -/
def ParseDuration (fractional : String → Option Int) (s : String) : Option Int :=
  if s.data.contains '.' then fractional s
  else
    let p := signSplit s.data
    if p.2 = ['0'] then some 0
    else
      match durationGroups p.2.length p.2 0 with
      | none => none
      | some total =>
        if p.1 then (if total ≤ 2 ^ 63 then some (- (total : Int)) else none)
        else (if total < 2 ^ 63 then some (total : Int) else none)

/-- The native duration `time.Minute`, in nanoseconds. -/
def Minute : Int := 60000000000

/-- Modelled from the spec: a value stored in a map-backed input source: a
native duration in nanoseconds, a string, an integer, a number with a
fraction, a boolean, or a nested map. -/
inductive MapValue where
  | duration (d : Int)
  | str (s : String)
  | int (n : Int)
  | float (whole : Int) (frac : List Nat)
  | bool (b : Bool)
  | map (fields : List (String × MapValue))

/-- Modelled from the spec: the map-backed input source. -/
structure MapInputSource where
  file : String
  valueMap : List (String × MapValue)

/-- Modelled from the spec: the errors of a typed getter (§6, §7). -/
inductive SourceError where
  | MissingKeyError (name : String)
  | TypeMismatchError (name : String)
deriving DecidableEq, Repr

/-- Modelled from the spec: nested lookup in a map value, one segment per
level. -/
def MapValue.get : MapValue → List String → Option MapValue
  | v, [] => some v
  | .map fields, k :: ks =>
    match fields.lookup k with
    | some v => MapValue.get v ks
    | none => none
  | _, _ :: _ => none

/-- Modelled from the spec: the value a map-backed source stores under a
dotted key path. -/
def MapInputSource.lookup (m : MapInputSource) (name : String) : Option MapValue :=
  (MapValue.map m.valueMap).get (keyPath name)

/-- Modelled from the spec: `Duration(name)` of the map-backed source (§4.4):
a native duration as it is, a string through the duration grammar, every
other stored type an error. -/
def MapInputSource.Duration (fractional : String → Option Int) (m : MapInputSource)
    (name : String) : Except SourceError Int :=
  match m.lookup name with
  | none => .error (.MissingKeyError name)
  | some (.duration d) => .ok d
  | some (.str s) =>
    match ParseDuration fractional s with
    | some d => .ok d
    | none => .error (.TypeMismatchError name)
  | some _ => .error (.TypeMismatchError name)

/-- The source of `TestMapDuration`. -/
def durationSource : MapInputSource :=
  { file := "test"
    valueMap := [("duration_of_duration_type", .duration Minute),
      ("duration_of_string_type", .str "1m"),
      ("duration_of_int_type", .int 1000)] }

/-! ## `App` -/

/-- A command, as far as `App.Setup` reads and writes it. -/
structure Command where
  Name : String
  Aliases : List String
  HelpName : String
deriving DecidableEq, Repr

/-- The struct `App`, with the fields `Setup` reads or writes and the texts
next to them.  A function or writer is `some` name, or `none` when nil; the
compilation time is `none` when it is the zero `time.Time`. -/
structure App where
  Name : String
  HelpName : String
  Usage : String
  UsageText : String
  ArgsUsage : String
  Version : String
  Description : String
  Commands : List Command
  EnableBashCompletion : Bool
  HideHelp : Bool
  HideVersion : Bool
  BashComplete : Option String
  Action : Option String
  Compiled : Option Nat
  Copyright : String
  Writer : Option String
  didSetup : Bool
deriving DecidableEq, Repr

/-- What `Setup` takes from the process and from the rest of the package:
`os.Args[0]`, the result of `compileTime()`, the command `helpCommand`, and
the methods `a.Command(name) != nil` and `a.appendCommand(c)` on the list of
commands. -/
structure AppEnv where
  progPath : String
  compileTime : Option Nat
  helpCommand : Command
  hasCommand : List Command → String → Bool
  appendCommand : List Command → Command → List Command

/-- `filepath.Base(path)` on slash-separated paths. -/
def filepathBase (path : String) : String :=
  if path.data = [] then "."
  else
    let p := (path.data.reverse.dropWhile (fun c => c = '/')).reverse
    let last := (p.reverse.takeWhile (fun c => !(c = '/'))).reverse
    if last = [] then "/" else ⟨last⟩

/-- The loop of `Setup` over `a.Commands`: a command without `HelpName` gets
`fmt.Sprintf("%s %s", a.HelpName, c.Name)`. -/
def setupCommands (helpName : String) (cs : List Command) : List Command :=
  cs.map fun c => if c.HelpName = "" then { c with HelpName := helpName ++ " " ++ c.Name } else c

/-- The defaults `Setup` gives the texts: `Name` and `HelpName` default to
`filepath.Base(os.Args[0])`, `Usage` to a fixed text, and an empty `Version`
hides the version. -/
def App.setupTexts (env : AppEnv) (a : App) : App :=
  let name := if a.Name = "" then filepathBase env.progPath else a.Name
  let helpName := if a.HelpName = "" then filepathBase env.progPath else a.HelpName
  let usage := if a.Usage = "" then "A new cli application" else a.Usage
  let hideVersion := if a.Version = "" then true else a.HideVersion
  { a with Name := name, HelpName := helpName, Usage := usage, HideVersion := hideVersion }

/-- The defaults `Setup` gives `BashComplete`, `Action`, `Compiled` and
`Writer` when they are nil or zero. -/
def App.setupHooks (env : AppEnv) (a : App) : App :=
  let bashComplete := if a.BashComplete = none then some "DefaultAppComplete" else a.BashComplete
  let action := if a.Action = none then some "helpCommand.Action" else a.Action
  let compiled := if a.Compiled = none then env.compileTime else a.Compiled
  let writer := if a.Writer = none then some "os.Stdout" else a.Writer
  { a with BashComplete := bashComplete, Action := action, Compiled := compiled,
           Writer := writer }

/-- The end of `Setup`: the loop over the commands, then the help command
appended when no command has its name and help is not hidden. -/
def App.setupHelp (env : AppEnv) (a : App) : App :=
  let commands := setupCommands a.HelpName a.Commands
  if !(env.hasCommand commands env.helpCommand.Name) && !a.HideHelp then
    { a with Commands := env.appendCommand commands env.helpCommand }
  else { a with Commands := commands }

/-- `(*App).Setup()`: nothing when the setup has been done; else `didSetup`
is set and the defaults are filled in, in the order of the source. -/
def App.Setup (env : AppEnv) (a : App) : App :=
  if a.didSetup then a
  else App.setupHelp env (App.setupHooks env (App.setupTexts env { a with didSetup := true }))

/-- An `App` literal with the given name, help name and commands, every
other field zero. -/
def appNamed (name helpName : String) (commands : List Command) : App :=
  { Name := name, HelpName := helpName, Usage := "", UsageText := "", ArgsUsage := "",
    Version := "", Description := "", Commands := commands, EnableBashCompletion := false,
    HideHelp := false, HideVersion := false, BashComplete := none, Action := none,
    Compiled := none, Copyright := "", Writer := none, didSetup := false }

/-- A process for examples: the program `/usr/local/bin/prog`, a command
`help` with the alias `h`, commands found by name or alias and appended at
the end. -/
def exampleAppEnv : AppEnv :=
  { progPath := "/usr/local/bin/prog"
    compileTime := some 1604500000
    helpCommand := { Name := "help", Aliases := ["h"], HelpName := "" }
    hasCommand := fun cs name => cs.any fun c => c.Name = name || c.Aliases.contains name
    appendCommand := fun cs c => if cs.contains c then cs else cs ++ [c] }

/-! ## `HandleAction` -/

/-- The value passed as `action interface{}`, by its dynamic type: an
`ActionFunc`, a `func(*Context) error`, a `func(*Context)`, or a value of
any other type (the nil interface included).  A function value is `none`
when it is nil; a function acts on a state of type `σ` and, for the first
two types, returns an error (`none` is `nil`). -/
inductive ActionValue (κ σ ε : Type) where
  | ActionFunc (a : Option (κ → σ → σ × Option ε))
  | funcError (a : Option (κ → σ → σ × Option ε))
  | funcVoid (a : Option (κ → σ → σ))
  | other

/-- `HandleAction(action, context)`: the state after the call and the
returned error.  `errInvalidActionType` is the package variable of that
name; a call of a nil function panics. -/
def HandleAction {κ σ ε : Type} (errInvalidActionType : ε) (action : ActionValue κ σ ε)
    (context : κ) (s : σ) : Outcome (σ × Option ε) :=
  match action with
  | .ActionFunc (some a) => .returned (a context s)
  | .ActionFunc none => .panicked
  | .funcError (some a) => .returned (a context s)
  | .funcError none => .panicked
  | .funcVoid (some a) => .returned (a context s, none)
  | .funcVoid none => .panicked
  | .other => .returned (s, some errInvalidActionType)

/-- An action for examples, of type `func(*Context) error`: it counts its
calls in the state and returns the error it is given. -/
def countingAction (result : Option String) : ActionValue Unit Nat String :=
  .funcError (some fun _ n => (n + 1, result))

/-! ## Runtimes for examples -/

/-- Modelled from the spec: `flagFromEnvOrFile` is declared outside the files
at hand.  By §4.3 the first variable of `envVars` that is set in the
environment is returned as found, an empty value included; failing that, a
non-empty `filePath` that can be read gives the file's contents; otherwise
nothing is found. -/
def specResolve (env files : List (String × String)) (envVars : List String)
    (filePath : String) : String × Bool :=
  match envVars.findSome? (fun v => env.lookup v) with
  | some val => (val, true)
  | none =>
    if filePath = "" then ("", false)
    else
      match files.lookup filePath with
      | some contents => (contents, true)
      | none => ("", false)

/-- Modelled from the spec: `flagNames` is declared outside the files at hand.
By §4.2 `Names()` is `Name` followed by `Aliases`. -/
def specFlagNames (name : String) (aliases : List String) : List String :=
  name :: aliases

/-- A runtime for examples: a prefix of the shape the package builds
(`sl:::` digits `:::`), a decoder that leaves the slice alone on documents
it does not store, and an environment in which `THE_INTS` is `1, 2,3` and
`EMPTY` is set to the empty string. -/
def exampleRuntime : Runtime :=
  { slPfx := "sl:::1604500000000000000:::"
    unmarshalOther := fun _ old => old
    flagFromEnvOrFile := specResolve [("THE_INTS", "1, 2,3"), ("EMPTY", "")] []
    flagNames := specFlagNames }

/-- A `Generic` for examples: it keeps the last string it was set to and
rejects the string `bad`. -/
def lastString : GenericImpl String String :=
  { Set := fun old v => if v = "bad" then (old, some "rejected") else (v, none) }

/-- A `GenericFlag` literal with the given name, aliases, environment
variables and value, every other field zero. -/
def genericFlag (name : String) (aliases envVars : List String) (value : Option Ptr) :
    GenericFlag :=
  { Name := name, Aliases := aliases, Usage := "", EnvVars := envVars, FilePath := "",
    Required := false, Hidden := false, Value := value, DefaultText := "", HasBeenSet := false }

/-- The example runtime in an environment of its own. -/
def runtimeWithEnv (env : List (String × String)) : Runtime :=
  { exampleRuntime with flagFromEnvOrFile := specResolve env [] }

/-- Two decimal digits read as a number. -/
def twoDigits (a b : Char) : Option Nat :=
  if a.isDigit && b.isDigit then some ((a.toNat - 48) * 10 + (b.toNat - 48)) else none

/-- A time library for examples, over year, month and day: the layout
`2006-01-02` reads four digits, two digits in 1..12 and two digits in 1..31
between dashes; the empty layout reads the empty string alone, as the first
of January of the year 0; whatever else is an error. -/
def exampleTime : TimeLib (Nat × Nat × Nat) :=
  { Parse := fun layout value =>
      if layout = "" then
        if value = "" then .ok (0, 1, 1) else .error "extra text"
      else if layout = "2006-01-02" then
        match value.data with
        | [y1, y2, y3, y4, '-', m1, m2, '-', d1, d2] =>
          match twoDigits y1 y2, twoDigits y3 y4, twoDigits m1 m2, twoDigits d1 d2 with
          | some a, some b, some m, some d =>
            if 1 ≤ m ∧ m ≤ 12 ∧ 1 ≤ d ∧ d ≤ 31 then .ok (a * 100 + b, m, d)
            else .error "out of range"
          | _, _, _, _ => .error "cannot parse"
        | _ => .error "cannot parse"
      else .error "unknown layout" }

/-- The verb `%q` on a string of plain printable characters: the string in
double quotes. -/
def plainQuote (s : String) : String :=
  "\"" ++ s ++ "\""

/-- The text of the `*strconv.NumError` that `ParseInt` returns on the input
`num`, a string of plain printable characters: `"strconv.ParseInt: parsing "
+ strconv.Quote(num) + ": " + Err.Error()`, where `Err` is `ErrSyntax` or
`ErrRange`. -/
def numErrorText (num : String) : NumError → String
  | .ErrSyntax => "strconv.ParseInt: parsing " ++ plainQuote num ++ ": invalid syntax"
  | .ErrRange => "strconv.ParseInt: parsing " ++ plainQuote num ++ ": value out of range"

/-- A `TimestampFlag` literal with the given name, aliases, environment
variables and value, every other field zero. -/
def timestampFlag (name : String) (aliases envVars : List String) (value : Option Ptr) :
    TimestampFlag :=
  { Name := name, Aliases := aliases, Usage := "", EnvVars := envVars, FilePath := "",
    Required := false, Hidden := false, Value := value, DefaultText := "", HasBeenSet := false }

/-- An `IntSliceFlag` literal with the given name, aliases, environment
variables and value, every other field zero. -/
def intSliceFlag (name : String) (aliases envVars : List String) (value : Option Ptr) :
    IntSliceFlag :=
  { Name := name, Aliases := aliases, Usage := "", EnvVars := envVars, FilePath := "",
    Required := false, Hidden := false, Value := value, DefaultText := "", HasBeenSet := false }

example : ParseInt "-12" = .ok (-12) := by decide
example : ParseInt "+7" = .ok 7 := by decide
example : ParseInt "" = .error .ErrSyntax := by decide
example : ParseInt "1_0" = .error .ErrSyntax := by decide
example : ParseInt "9223372036854775807" = .ok 9223372036854775807 := by decide
example : ParseInt "9223372036854775808" = .error .ErrRange := by decide
example : ParseInt "-9223372036854775808" = .ok (-9223372036854775808) := by decide
example : FormatInt (-120) = "-120".data := by decide
example : jsonMarshal (some [1, -2, 30]) = "[1,-2,30]" := by decide
example : decodeIntArray " [1, -2 ,30] ".data = some (some [1, -2, 30]) := by decide
example : decodeIntArray "[]".data = some (some []) := by decide
example : decodeIntArray "null".data = some none := by decide
example : decodeIntArray "[1,]".data = none := by decide
example : decodeIntArray "[01]".data = none := by decide
example : decodeIntArray "[-0, 7]".data = some (some [0, 7]) := by decide
example : decodeIntArray "[1.5]".data = none := by decide
example : decodeIntArray "[9223372036854775808]".data = none := by decide
example : (IntSlice.Set exampleRuntime (NewIntSlice [5, 6]) "3").1.slice = some [3] := by decide
example : SplitComma "1, 2,3" = ["1", " 2", "3"] := by decide
example : TrimSpace " 2\t" = "2" := by decide
example : setSegments exampleRuntime ⟨none, false⟩ (SplitComma "1, 2,3") = (⟨some [1, 2, 3], true⟩, none) := by
  decide
example : (intSliceFlag "n" ["a"] ["THE_INTS"] none).Apply exampleRuntime ⟨[], []⟩
    = .returned (none, { intSliceFlag "n" ["a"] ["THE_INTS"] (some 2) with HasBeenSet := true },
        ⟨[⟨some [1, 2, 3], true⟩, ⟨none, false⟩, ⟨none, false⟩], [("n", 1), ("a", 2)]⟩) := by
  decide
example : (intSliceFlag "n" [] [] none).Apply exampleRuntime ⟨[], []⟩ = .panicked := by
  decide

example : exampleTime.Parse "2006-01-02" "2020-01-02" = .ok (2020, 1, 2) := by decide
example : exampleTime.Parse "" "2020-01-02" = .error "extra text" := by decide
example : (NewIntSlice [1, 2]).String = "[]int\x7b1, 2\x7d" := by decide
example : Int64Slice.String ⟨none, false⟩ = "[]int64(nil)" := by decide
example : plainQuote "1, x" = "\"1, x\"" := by decide

example : ParseDuration (fun _ => none) "1m" = some Minute := by decide
example : ParseDuration (fun _ => none) "1h30m" = some 5400000000000 := by decide
example : ParseDuration (fun _ => none) "-2s" = some (-2000000000) := by decide
example : ParseDuration (fun _ => none) "1000" = none := by decide
example : ParseDuration (fun _ => none) "" = none := by decide
example : ParseDuration (fun _ => none) "0" = some 0 := by decide
example : filepathBase "/usr/local/bin/prog" = "prog" := by decide
example : filepathBase "prog" = "prog" := by decide
example : filepathBase "//" = "/" := by decide
example : filepathBase "" = "." := by decide
example : (App.Setup exampleAppEnv (appNamed "myapp" "" [⟨"run", [], ""⟩])).Commands
    = [⟨"run", [], "prog run"⟩, ⟨"help", ["h"], ""⟩] := by decide

example : (⟨"1, x", "n", NumError.ErrSyntax⟩ : ApplyError NumError).Error plainQuote
    (numErrorText "x") "int slice "
  = "could not parse \"1, x\" as int slice value for flag n: strconv.ParseInt: parsing \"x\": invalid syntax" := by
  decide
example : HandleAction "invalid" (countingAction none) () 0 = .returned (1, none) := by decide
example : HandleAction "invalid" (.other : ActionValue Unit Nat String) () 0
    = .returned (0, some "invalid") := by decide

/-! ## Library facts: characters and `strconv` -/

theorem isDigit_toNat (c : Char) (h : c.isDigit = true) : 48 ≤ c.toNat ∧ c.toNat ≤ 57 := by
  simp only [Char.isDigit, Bool.and_eq_true, decide_eq_true_eq, ge_iff_le] at h
  obtain ⟨h1, h2⟩ := h
  rw [UInt32.le_def] at h1 h2
  simp [Char.toNat, UInt32.toNat] at *
  exact ⟨h1, h2⟩

theorem isDigit_ofNat (k : Nat) (h : k < 10) :
    (Char.ofNat (48 + k)).isDigit = true ∧ (Char.ofNat (48 + k)).toNat = 48 + k := by
  interval_cases k <;> decide

theorem decimalFrom_ge (ds : List Char) (n : Nat) : n ≤ decimalFrom n ds := by
  induction ds generalizing n with
  | nil => simp [decimalFrom]
  | cons c cs ih =>
    have h := ih (n * 10 + (c.toNat - 48))
    simp only [decimalFrom, List.foldl_cons] at h ⊢
    omega

theorem decimalFrom_cons (c : Char) (cs : List Char) (n : Nat) :
    decimalFrom n (c :: cs) = decimalFrom (n * 10 + (c.toNat - 48)) cs := rfl

theorem decimalFrom_append (as bs : List Char) (n : Nat) :
    decimalFrom n (as ++ bs) = decimalFrom (decimalFrom n as) bs := by
  simp [decimalFrom, List.foldl_append]

/-- The digit loop returns a number exactly on digit strings whose value fits
in 64 bits, and then returns that value. -/
theorem parseUintLoop_ok_iff (cs : List Char) (n v : Nat) (hn : n ≤ maxUint64) :
    parseUintLoop cs n = .ok v ↔
      (cs.all Char.isDigit = true ∧ decimalFrom n cs = v ∧ v ≤ maxUint64) := by
  induction cs generalizing n with
  | nil =>
    simp only [parseUintLoop, decimalFrom, List.all_nil, List.foldl_nil, true_and]
    constructor
    · intro h; injection h with h; subst h; exact ⟨rfl, hn⟩
    · rintro ⟨h, -⟩; rw [h]
  | cons c cs ih =>
    by_cases hd : c.isDigit = true
    · obtain ⟨h48, h57⟩ := isDigit_toNat c hd
      have hge := decimalFrom_ge cs (n * 10 + (c.toNat - 48))
      simp only [maxUint64, cutoff10] at hn ih ⊢
      norm_num at hn ih
      simp only [parseUintLoop, hd, if_true, List.all_cons, Bool.true_and, decimalFrom_cons,
        maxUint64, cutoff10]
      norm_num
      by_cases hc : 1844674407370955162 ≤ n
      · simp only [hc, if_true]
        constructor
        · intro h; cases h
        · rintro ⟨-, h2, h3⟩; omega
      · simp only [hc, if_false]
        have e1 : n * 10 % 18446744073709551616 = n * 10 := by omega
        rw [e1]
        by_cases ho : n * 10 + (c.toNat - 48) < 18446744073709551616
        · have e2 : (n * 10 + (c.toNat - 48)) % 18446744073709551616
              = n * 10 + (c.toNat - 48) := by omega
          rw [e2]
          have hno : ¬ (n * 10 + (c.toNat - 48) < n * 10 ∨
              18446744073709551615 < n * 10 + (c.toNat - 48)) := by omega
          simp only [hno, if_false]
          exact ih (n * 10 + (c.toNat - 48)) (by omega)
        · have hyes : ((n * 10 + (c.toNat - 48)) % 18446744073709551616 < n * 10 ∨
              18446744073709551615 < (n * 10 + (c.toNat - 48)) % 18446744073709551616) := by
            omega
          simp only [hyes, if_true]
          constructor
          · intro h; cases h
          · rintro ⟨-, h2, h3⟩; omega
    · simp only [parseUintLoop, hd, List.all_cons]
      simp

/-- `ParseUint` either returns the value of a non-empty digit string that fits
in 64 bits, or fails on a string that is not of that kind. -/
theorem ParseUint_cases (ds : List Char) :
    (∃ v, ParseUint ds = .ok v ∧ (!ds.isEmpty && ds.all Char.isDigit) = true ∧
        decimalValue ds = v ∧ v ≤ maxUint64) ∨
    (∃ e, ParseUint ds = .error e ∧
        ¬ ((!ds.isEmpty && ds.all Char.isDigit) = true ∧ decimalValue ds ≤ maxUint64)) := by
  unfold ParseUint
  by_cases hnil : ds = []
  · right; subst hnil; exact ⟨.ErrSyntax, by simp, by simp⟩
  · have hne : ds.isEmpty = false := by
      cases ds with
      | nil => exact absurd rfl hnil
      | cons _ _ => rfl
    simp only [hnil, if_false, hne, Bool.not_false, Bool.true_and]
    cases hP : parseUintLoop ds 0 with
    | ok v =>
      left
      have := (parseUintLoop_ok_iff ds 0 v (by simp [maxUint64])).1 hP
      exact ⟨v, rfl, this⟩
    | error e =>
      right
      refine ⟨e, rfl, ?_⟩
      rintro ⟨h1, h2⟩
      have := (parseUintLoop_ok_iff ds 0 (decimalValue ds) (by simp [maxUint64])).2 ⟨h1, rfl, h2⟩
      rw [hP] at this
      cases this

/-- `ParseInt` returns `v` exactly on the base-10 literals of value `v` within
the signed 64-bit range. -/
theorem ParseInt_ok_iff (s : String) (v : Int) :
    ParseInt s = .ok v ↔ (isIntLiteral s = true ∧ literalValue s = v ∧ inInt64 v) := by
  unfold ParseInt isIntLiteral literalValue inInt64
  cases hs : s.data with
  | nil => simp [signSplit]
  | cons c cs =>
    have hmax : maxUint64 = 18446744073709551615 := by norm_num [maxUint64]
    by_cases hm : c = '-'
    · subst hm
      simp only [signSplit, decide_True, true_and, not_true_eq_false, false_and, if_false,
        if_true, or_true]
      rcases ParseUint_cases cs with ⟨u, hu, hd, hv, hle⟩ | ⟨e, he, hno⟩
      · rw [hu, hv]
        simp only [hd, true_and]
        by_cases hr : u > 2 ^ 63
        · simp only [hr, if_true]
          constructor
          · intro h; cases h
          · rintro ⟨h1, h2, h3⟩; omega
        · simp only [hr, if_false]
          constructor
          · intro h; injection h with h; exact ⟨h, by omega, by omega⟩
          · rintro ⟨h1, -⟩; rw [h1]
      · rw [he]
        have : ¬ ((!cs.isEmpty && cs.all Char.isDigit) = true ∧
            (-(decimalValue cs : Int) = v ∧ -2 ^ 63 ≤ v ∧ v < 2 ^ 63)) := by
          rintro ⟨h1, h2, h3, h4⟩
          exact hno ⟨h1, by rw [hmax]; omega⟩
        cases e <;> simp only [false_iff, reduceCtorEq] <;> exact this
    · by_cases hp : c = '+'
      · subst hp
        simp only [signSplit, hm, decide_False, false_and, if_false, true_or, if_true,
          not_false_eq_true, true_and, Bool.false_eq_true]
        rcases ParseUint_cases cs with ⟨u, hu, hd, hv, hle⟩ | ⟨e, he, hno⟩
        · rw [hu, hv]
          simp only [hd, true_and]
          by_cases hr : u ≥ 2 ^ 63
          · simp only [hr, if_true]
            constructor
            · intro h; cases h
            · rintro ⟨h1, h2, h3⟩; omega
          · simp only [hr, if_false]
            constructor
            · intro h; injection h with h; exact ⟨h, by omega, by omega⟩
            · rintro ⟨h1, -⟩; rw [h1]
        · rw [he]
          have : ¬ ((!cs.isEmpty && cs.all Char.isDigit) = true ∧
              ((decimalValue cs : Int) = v ∧ -2 ^ 63 ≤ v ∧ v < 2 ^ 63)) := by
            rintro ⟨h1, h2, h3, h4⟩
            exact hno ⟨h1, by rw [hmax]; omega⟩
          cases e <;> simp only [false_iff, reduceCtorEq] <;> exact this
      · have hsplit : signSplit (c :: cs) = (false, c :: cs) := by
          unfold signSplit
          split
          · rename_i h; injection h with h _; exact absurd h hm
          · rename_i h; injection h with h _; exact absurd h hp
          · rfl
        simp only [hsplit, hm, hp, decide_False, false_and, if_false, or_self, not_false_eq_true,
          true_and, Bool.false_eq_true]
        rcases ParseUint_cases (c :: cs) with ⟨u, hu, hd, hv, hle⟩ | ⟨e, he, hno⟩
        · rw [hu, hv]
          simp only [hd, true_and]
          by_cases hr : u ≥ 2 ^ 63
          · simp only [hr, if_true]
            constructor
            · intro h; cases h
            · rintro ⟨h1, h2, h3⟩; omega
          · simp only [hr, if_false]
            constructor
            · intro h; injection h with h; exact ⟨h, by omega, by omega⟩
            · rintro ⟨h1, -⟩; rw [h1]
        · rw [he]
          have : ¬ ((!(c :: cs).isEmpty && (c :: cs).all Char.isDigit) = true ∧
              ((decimalValue (c :: cs) : Int) = v ∧ -2 ^ 63 ≤ v ∧ v < 2 ^ 63)) := by
            rintro ⟨h1, h2, h3, h4⟩
            exact hno ⟨h1, by rw [hmax]; omega⟩
          cases e <;> simp only [false_iff, reduceCtorEq] <;> exact this

theorem toInt_of_inInt64 (v : Int) (h : inInt64 v) : toInt v = v := by
  unfold inInt64 at h
  unfold toInt
  norm_num at h ⊢
  omega

/-! ## `IntSlice.Set`, case by case -/

/-- The cell `Set` works on once the defaults are cleared. -/
theorem Set_prefixed (rt : Runtime) (f : IntSlice) (value : String)
    (h : HasPrefix value rt.slPfx = true) :
    (f.Set rt value).2 = none ∧ (f.Set rt value).1.hasBeenSet = true := by
  simp [IntSlice.Set, h]

theorem Set_of_literal (rt : Runtime) (f : IntSlice) (value : String)
    (hp : HasPrefix value rt.slPfx = false)
    (hl : isIntLiteral value = true) (hr : inInt64 (literalValue value)) :
    f.Set rt value =
      ({ slice := some ((if f.hasBeenSet then f.slice.elems else []) ++ [literalValue value]),
         hasBeenSet := true }, none) := by
  have hP : ParseInt value = .ok (literalValue value) :=
    (ParseInt_ok_iff value _).2 ⟨hl, rfl, hr⟩
  unfold IntSlice.Set
  simp only [hp, hP, toInt_of_inInt64 _ hr]
  cases hb : f.hasBeenSet <;> simp [GoSlice.elems, hb]

theorem Set_error_iff (rt : Runtime) (f : IntSlice) (raw : String) :
    (f.Set rt raw).2 ≠ none ↔
      (HasPrefix raw rt.slPfx = false ∧
        ¬ (isIntLiteral raw = true ∧ inInt64 (literalValue raw))) := by
  unfold IntSlice.Set
  cases hp : HasPrefix raw rt.slPfx
  · cases hP : ParseInt raw with
    | ok v =>
      have := (ParseInt_ok_iff raw v).1 hP
      obtain ⟨h1, h2, h3⟩ := this
      subst h2
      simp [h1, h3]
    | error e =>
      have : ¬ (isIntLiteral raw = true ∧ inInt64 (literalValue raw)) := by
        rintro ⟨h1, h2⟩
        have := (ParseInt_ok_iff raw _).2 ⟨h1, rfl, h2⟩
        rw [hP] at this
        cases this
      simp [this]
  · simp

theorem Set_of_error (rt : Runtime) (f : IntSlice) (raw : String)
    (h : (f.Set rt raw).2 ≠ none) :
    (f.Set rt raw).1 =
      (if f.hasBeenSet then f else { slice := some [], hasBeenSet := true }) := by
  unfold IntSlice.Set at h ⊢
  cases hp : HasPrefix raw rt.slPfx
  · rw [hp] at h
    cases hP : ParseInt raw with
    | ok v => rw [hP] at h; simp at h
    | error e => cases hb : f.hasBeenSet <;> simp [hb]
  · rw [hp] at h; simp at h

theorem exampleRuntime_reserved : exampleRuntime.Reserved := by
  intro s h
  unfold HasPrefix exampleRuntime at h
  unfold isIntLiteral
  cases hs : s.data with
  | nil => rw [hs] at h; simp at h
  | cons c cs =>
    rw [hs] at h
    simp only [List.isPrefixOf, Bool.and_eq_true, beq_iff_eq] at h
    obtain ⟨hc, -⟩ := h
    subst hc
    simp [signSplit]

/-- `Set` on literal after literal: the first call drops what an unset cell
held, every call appends one value. -/
theorem SetEach_literals (rt : Runtime) (hres : rt.Reserved) (ls : List String)
    (hlit : ∀ l ∈ ls, isIntLiteral l = true ∧ inInt64 (literalValue l))
    (hne : ls ≠ []) (f : IntSlice) :
    f.SetEach rt ls =
      ({ slice := some ((if f.hasBeenSet then f.slice.elems else []) ++ ls.map literalValue),
         hasBeenSet := true }, List.replicate ls.length none) := by
  induction ls generalizing f with
  | nil => exact absurd rfl hne
  | cons l ls ih =>
    have hl := hlit l (List.mem_cons_self _ _)
    have hp : HasPrefix l rt.slPfx = false := by
      cases h : HasPrefix l rt.slPfx
      · rfl
      · have := hres l h; rw [hl.1] at this; cases this
    have hS := Set_of_literal rt f l hp hl.1 hl.2
    by_cases hnil : ls = []
    · subst hnil
      simp [IntSlice.SetEach, hS]
    · have := ih (fun x hx => hlit x (List.mem_cons_of_mem _ hx)) hnil (f.Set rt l).1
      rw [hS] at this
      simp only [IntSlice.SetEach, hS, this]
      simp [GoSlice.elems, List.replicate_succ]

/-! ## The value cell: accumulation and failure -/

/-- C2. Starting from a cell built by `NewIntSlice` / `NewInt64Slice` with any
defaults, `Set` applied to base-10 literals in the 64-bit range succeeds at
every call, and after the first `k ≥ 1` calls `Value()` is exactly the values
of the first `k` literals in order: the first call discards the defaults,
each later call appends one element and leaves the earlier ones alone.  The
serialization prefix is taken to be reserved (no literal begins with it). -/
theorem set_literals_discards_defaults_then_appends (rt : Runtime) (hres : rt.Reserved)
    (defaults : List Int) (ls : List String)
    (hlit : ∀ l ∈ ls, isIntLiteral l = true ∧ inInt64 (literalValue l))
    (k : Nat) (hk : 0 < k) (hkl : k ≤ ls.length) :
    ((NewIntSlice defaults).SetEach rt (ls.take k)).2 = List.replicate k none ∧
    ((NewIntSlice defaults).SetEach rt (ls.take k)).1.Value
      = some ((ls.take k).map literalValue) := by
  have hne : ls.take k ≠ [] := by
    intro h
    have := congrArg List.length h
    simp only [List.length_take, List.length_nil] at this
    omega
  have hlen : (ls.take k).length = k := by
    simp only [List.length_take]
    omega
  have h := SetEach_literals rt hres (ls.take k)
    (fun l hl => hlit l (List.mem_of_mem_take hl)) hne (NewIntSlice defaults)
  rw [h, hlen]
  simp [NewIntSlice, IntSlice.Value]

/-- C2, at defaults `9, 8` and the literals `1`, `-2`, `+3`: after two calls
the cell holds `1, -2`. -/
theorem set_literals_discards_defaults_then_appends_witness :
    ((NewIntSlice [9, 8]).SetEach exampleRuntime ["1", "-2"]).2 = [none, none] ∧
    ((NewIntSlice [9, 8]).SetEach exampleRuntime ["1", "-2"]).1.Value = some [1, -2] :=
  set_literals_discards_defaults_then_appends exampleRuntime exampleRuntime_reserved
    [9, 8] ["1", "-2", "+3"] (by decide) 2 (by decide) (by decide)

/-- C9, refuted as stated: on a fresh cell holding the defaults `1, 2`,
`Set("x")` returns an error and `Value()` is then empty, not `1, 2`. -/
theorem set_error_clears_defaults :
    ((NewIntSlice [1, 2]).Set exampleRuntime "x").2 = some NumError.ErrSyntax ∧
    ((NewIntSlice [1, 2]).Set exampleRuntime "x").1.Value = some [] ∧
    (NewIntSlice [1, 2]).Value = some [1, 2] := by
  decide

/-- C9, amended. When `Set(raw)` returns an error, `Value()` is the same
sequence as before the call on every cell whose `hasBeenSet` is true; on a
cell whose `hasBeenSet` is false it is the empty sequence. -/
theorem set_error_keeps_value_once_set (rt : Runtime) (f : IntSlice) (raw : String)
    (herr : (f.Set rt raw).2 ≠ none) :
    (f.hasBeenSet = true → (f.Set rt raw).1.Value = f.Value) ∧
    (f.hasBeenSet = false → (f.Set rt raw).1.Value = some []) := by
  rw [Set_of_error rt f raw herr]
  constructor <;> intro hb <;> simp [hb, IntSlice.Value]

/-- C9 amended, at a cell already set to `4` and the raw string `x`. -/
theorem set_error_keeps_value_once_set_witness :
    ((⟨some [4], true⟩ : IntSlice).Set exampleRuntime "x").1.Value = some [4] :=
  (set_error_keeps_value_once_set exampleRuntime ⟨some [4], true⟩ "x" (by decide)).1 rfl

/-- C10, refuted as stated: the reserved prefix followed by `not-json` is no
integer literal and no JSON array, and `Set` returns no error for it. -/
theorem set_accepts_malformed_payload :
    ((NewIntSlice []).Set exampleRuntime (exampleRuntime.slPfx ++ "not-json")).2 = none ∧
    isIntLiteral (exampleRuntime.slPfx ++ "not-json") = false ∧
    decodeIntArray "not-json".data = none := by
  decide

/-- C10, amended. `Set(raw)` returns an error exactly when `raw` does not
begin with the reserved prefix and is not a base-10 integer literal within
the signed 64-bit range; a `raw` that begins with the reserved prefix is
accepted whatever follows the prefix. -/
theorem set_error_iff_no_prefix_and_no_literal (rt : Runtime) (f : IntSlice) (raw : String) :
    ((f.Set rt raw).2 ≠ none ↔
      (HasPrefix raw rt.slPfx = false ∧
        ¬ (isIntLiteral raw = true ∧ inInt64 (literalValue raw)))) ∧
    (∀ payload : String, (f.Set rt (rt.slPfx ++ payload)).2 = none) := by
  refine ⟨Set_error_iff rt f raw, ?_⟩
  intro payload
  have hp : HasPrefix (rt.slPfx ++ payload) rt.slPfx = true := by
    simp [HasPrefix, String.data_append]
  exact (Set_prefixed rt f _ hp).1

/-! ## Library facts: `strconv.FormatInt` and the JSON codec -/

theorem removeFirst_append (old m : List Char) : removeFirst old (old ++ m) = m := by
  cases h : old ++ m with
  | nil =>
    have := List.append_eq_nil.1 h
    rw [this.2]
    rfl
  | cons c cs =>
    have hp : old.isPrefixOf (c :: cs) = true := by
      rw [← h]; simp
    rw [removeFirst, if_pos hp, ← h]
    simp

theorem formatBits_acc (fuel n : Nat) (acc : List Char) :
    formatBits fuel n acc = formatBits fuel n [] ++ acc := by
  induction fuel generalizing n acc with
  | zero => simp [formatBits]
  | succ k ih =>
    simp only [formatBits]
    split
    · simp
    · rw [ih, ih (n / 10) [_]]; simp

theorem digit_zero_iff (k : Nat) (h : k < 10) : Char.ofNat (48 + k) = '0' → k = 0 := by
  intro hc
  have := congrArg Char.toNat hc
  rw [(isDigit_ofNat k h).2] at this
  have h0 : ('0' : Char).toNat = 48 := by decide
  omega

/-- With enough fuel `formatBits` writes `n` in decimal digits without a
leading zero (`0` itself is the one digit `0`). -/
theorem formatBits_spec (fuel n : Nat) (h : n < 10 ^ (fuel + 1)) :
    (formatBits (fuel + 1) n []).all Char.isDigit = true ∧
    decimalFrom 0 (formatBits (fuel + 1) n []) = n ∧
    ∃ c r, formatBits (fuel + 1) n [] = c :: r ∧ (c = '0' → n = 0 ∧ r = []) := by
  induction fuel generalizing n with
  | zero =>
    have h10 : n < 10 := by simpa using h
    obtain ⟨hd, ht⟩ := isDigit_ofNat n h10
    simp only [formatBits, h10, if_true]
    refine ⟨by simp [hd], by simp [decimalFrom, ht], _, _, rfl, fun hc => ⟨digit_zero_iff n h10 hc, rfl⟩⟩
  | succ k ih =>
    by_cases h10 : n < 10
    · obtain ⟨hd, ht⟩ := isDigit_ofNat n h10
      rw [formatBits]
      simp only [h10, if_true]
      refine ⟨by simp [hd], by simp [decimalFrom, ht], _, _, rfl,
        fun hc => ⟨digit_zero_iff n h10 hc, rfl⟩⟩
    · have hdiv : n / 10 < 10 ^ (k + 1) := by
        apply Nat.div_lt_of_lt_mul
        rw [pow_succ] at h
        omega
      obtain ⟨h1, h2, c, r, h3, h4⟩ := ih (n / 10) hdiv
      obtain ⟨hd, ht⟩ := isDigit_ofNat (n % 10) (Nat.mod_lt _ (by norm_num))
      rw [formatBits]
      simp only [h10, if_false]
      rw [formatBits_acc]
      refine ⟨?_, ?_, c, r ++ [Char.ofNat (48 + n % 10)], by rw [h3]; rfl, ?_⟩
      · rw [List.all_append, h1]; simp [hd]
      · rw [decimalFrom_append, h2]
        simp only [decimalFrom, List.foldl_cons, List.foldl_nil, ht]
        omega
      · intro hc
        have := (h4 hc).1
        omega

theorem signSplit_other (c : Char) (cs : List Char) (hm : c ≠ '-') (hp : c ≠ '+') :
    signSplit (c :: cs) = (false, c :: cs) := by
  unfold signSplit
  split
  · rename_i h; injection h with h _; exact absurd h hm
  · rename_i h; injection h with h _; exact absurd h hp
  · rfl

theorem isDigit_ne_sign (c : Char) (h : c.isDigit = true) : c ≠ '-' ∧ c ≠ '+' := by
  obtain ⟨h48, _⟩ := isDigit_toNat c h
  constructor <;> intro hc <;> subst hc <;> revert h48 <;> decide

theorem isJSONSpace_false (c : Char) (h : c.isDigit = true ∨ c = '-' ∨ c = ',' ∨ c = '[' ∨ c = ']') :
    isJSONSpace c = false := by
  rcases h with h | h | h | h | h
  · obtain ⟨h48, _⟩ := isDigit_toNat c h
    cases hs : isJSONSpace c
    · rfl
    · simp only [isJSONSpace, Bool.or_eq_true, decide_eq_true_eq] at hs
      rcases hs with ((hs | hs) | hs) | hs <;> subst hs <;> revert h48 <;> decide
  all_goals subst h; decide

theorem dropWhile_of_all_false (p : Char → Bool) (s : List Char) (h : ∀ c ∈ s, p c = false) :
    s.dropWhile p = s := by
  cases s with
  | nil => rfl
  | cons c cs => simp [List.dropWhile, h c (List.mem_cons_self _ _)]

theorem trimBoth_of_all_false (p : Char → Bool) (s : List Char) (h : ∀ c ∈ s, p c = false) :
    trimBoth p s = s := by
  unfold trimBoth
  rw [dropWhile_of_all_false p s h,
    dropWhile_of_all_false p s.reverse (fun c hc => h c (List.mem_reverse.1 hc)),
    List.reverse_reverse]

/-- `FormatInt` of a 64-bit integer: digits behind an optional minus sign,
a JSON integer, and read back by `ParseInt` as the same integer. -/
theorem FormatInt_facts (x : Int) (hx : inInt64 x) :
    (∀ c ∈ FormatInt x, c.isDigit = true ∨ c = '-') ∧
    FormatInt x ≠ [] ∧
    isJSONInt (FormatInt x) = true ∧
    ParseInt ⟨FormatInt x⟩ = .ok x := by
  have hx' := hx
  unfold inInt64 at hx'
  norm_num at hx'
  have hlt : x.natAbs < 10 ^ (19 + 1) := by norm_num; omega
  obtain ⟨hall, hval, c, r, hcr, hzero⟩ := formatBits_spec 19 x.natAbs hlt
  have hcd : c.isDigit = true := by
    rw [hcr] at hall
    simp only [List.all_cons, Bool.and_eq_true] at hall
    exact hall.1
  obtain ⟨hcm, hcp⟩ := isDigit_ne_sign c hcd
  have hjs : (if c = '0' then r.isEmpty else (c :: r).all Char.isDigit) = true := by
    by_cases h0 : c = '0'
    · simp [h0, (hzero h0).2]
    · rw [if_neg h0, ← hcr]; exact hall
  have hmem : ∀ d ∈ formatBits 20 x.natAbs [], d.isDigit = true := by
    intro d hd
    exact (List.all_eq_true.1 hall) d hd
  unfold FormatInt
  by_cases hneg : x < 0
  · simp only [hneg, if_true]
    refine ⟨?_, by simp, ?_, ?_⟩
    · intro d hd
      rcases List.mem_cons.1 hd with h | h
      · exact Or.inr h
      · exact Or.inl (hmem d h)
    · simp only [isJSONInt, List.head?_cons, if_true, List.tail_cons, hcr]
      exact hjs
    · rw [ParseInt_ok_iff]
      refine ⟨?_, ?_, hx⟩
      · simp only [isIntLiteral, signSplit, hcr]
        rw [← hcr, hall]; simp [hcr]
      · simp only [literalValue, signSplit, if_true, decimalValue, hval]
        omega
  · simp only [hneg, if_false]
    refine ⟨fun d hd => Or.inl (hmem d hd), by rw [hcr]; simp, ?_, ?_⟩
    · simp only [isJSONInt, hcr, List.head?_cons, Option.some.injEq, hcm, if_false]
      exact hjs
    · rw [ParseInt_ok_iff]
      refine ⟨?_, ?_, hx⟩
      · simp only [isIntLiteral, hcr, signSplit_other c r hcm hcp]
        rw [← hcr, hall]; simp [hcr]
      · simp only [literalValue, hcr, signSplit_other c r hcm hcp]
        rw [← hcr]
        simp only [decimalValue, hval, Bool.false_eq_true, if_false]
        omega

theorem decodeElems_format (xs : List Int) (h : ∀ x ∈ xs, inInt64 x) :
    decodeElems (xs.map FormatInt) = some xs := by
  induction xs with
  | nil => rfl
  | cons x xs ih =>
    obtain ⟨hch, -, hjs, hP⟩ := FormatInt_facts x (h x (List.mem_cons_self _ _))
    have htrim : trimBoth isJSONSpace (FormatInt x) = FormatInt x :=
      trimBoth_of_all_false _ _ (fun c hc => isJSONSpace_false c (by
        rcases hch c hc with h | h
        · exact Or.inl h
        · exact Or.inr (Or.inl h)))
    have hrest := ih (fun y hy => h y (List.mem_cons_of_mem _ hy))
    simp only [List.map_cons, decodeElems, htrim, decodeElem, hjs, if_true, hP, hrest]

theorem mem_intercalate_comma (ls : List (List Char)) (c : Char)
    (hc : c ∈ [','].intercalate ls) : c = ',' ∨ ∃ l ∈ ls, c ∈ l := by
  induction ls with
  | nil => simp [List.intercalate] at hc
  | cons a t ih =>
    cases t with
    | nil =>
      simp only [List.intercalate, List.intersperse_single, List.flatten, List.append_nil] at hc
      exact Or.inr ⟨a, List.mem_cons_self _ _, hc⟩
    | cons b t =>
      simp only [List.intercalate, List.intersperse_cons_cons, List.flatten,
        List.mem_append] at hc ih
      rcases hc with h | h | h
      · exact Or.inr ⟨a, List.mem_cons_self _ _, h⟩
      · exact Or.inl (by simpa using h)
      · rcases ih h with h' | ⟨l, hl, hcl⟩
        · exact Or.inl h'
        · exact Or.inr ⟨l, List.mem_cons_of_mem _ hl, hcl⟩

/-- The decoder reads back what the encoder wrote: the nil slice from
`null`, any slice of 64-bit integers from its array. -/
theorem decodeIntArray_jsonMarshal (s : GoSlice) (h : ∀ x ∈ s.elems, inInt64 x) :
    decodeIntArray (jsonMarshal s).data = some s := by
  cases s with
  | none => decide
  | some xs =>
    have hx : ∀ x ∈ xs, inInt64 x := h
    have hseg : ∀ l ∈ xs.map FormatInt, ∀ c ∈ l, c.isDigit = true ∨ c = '-' := by
      intro l hl c hc
      obtain ⟨x, hxm, rfl⟩ := List.mem_map.1 hl
      exact (FormatInt_facts x (hx x hxm)).1 c hc
    have hinter : ∀ c ∈ [','].intercalate (xs.map FormatInt),
        c.isDigit = true ∨ c = '-' ∨ c = ',' ∨ c = '[' ∨ c = ']' := by
      intro c hc
      rcases mem_intercalate_comma _ c hc with h' | ⟨l, hl, hcl⟩
      · exact Or.inr (Or.inr (Or.inl h'))
      · rcases hseg l hl c hcl with h' | h'
        · exact Or.inl h'
        · exact Or.inr (Or.inl h')
    have hdoc : (jsonMarshal (some xs)).data
        = '[' :: ([','].intercalate (xs.map FormatInt) ++ [']']) := by
      simp [jsonMarshal]
    have htrim1 : trimBoth isJSONSpace ('[' :: ([','].intercalate (xs.map FormatInt) ++ [']']))
        = '[' :: ([','].intercalate (xs.map FormatInt) ++ [']']) := by
      apply trimBoth_of_all_false
      intro c hc
      apply isJSONSpace_false
      rcases List.mem_cons.1 hc with h' | h'
      · exact Or.inr (Or.inr (Or.inr (Or.inl h')))
      · rcases List.mem_append.1 h' with h'' | h''
        · exact hinter c h''
        · exact Or.inr (Or.inr (Or.inr (Or.inr (by simpa using h''))))
    have htrim2 : trimBoth isJSONSpace ([','].intercalate (xs.map FormatInt))
        = [','].intercalate (xs.map FormatInt) :=
      trimBoth_of_all_false _ _ (fun c hc => isJSONSpace_false c (hinter c hc))
    rw [hdoc]
    unfold decodeIntArray
    simp only [htrim1, List.reverse_append, List.reverse_cons, List.reverse_nil, List.nil_append,
      List.singleton_append, List.reverse_reverse, htrim2]
    rw [if_neg (by intro hn; injection hn with hn _; revert hn; decide)]
    cases xs with
    | nil => simp [List.intercalate]
    | cons x t =>
      have hsplit : ([','].intercalate ((x :: t).map FormatInt)).splitOn ','
          = (x :: t).map FormatInt := by
        apply List.splitOn_intercalate
        · intro l hl hc
          rcases hseg l hl ',' hc with h' | h'
          · revert h'; decide
          · revert h'; decide
        · simp
      have hne : [','].intercalate ((x :: t).map FormatInt) ≠ [] := by
        intro he
        rw [he] at hsplit
        have h0 : FormatInt x = [] := by
          have := hsplit
          simp only [List.map_cons] at this
          have h1 := (List.cons.inj this.symm).1
          exact h1
        exact (FormatInt_facts x (hx x (List.mem_cons_self _ _))).2.1 h0
      rw [if_neg hne, hsplit, decodeElems_format _ hx]
      rfl

/-! ## Serialization round trip -/

/-- C1. For every source cell `s` (its elements 64-bit integers, the empty
and the nil slice included) and every target cell `t` in any state,
`t.Set(s.Serialize())` returns no error, and afterwards `t.Value()` is the
slice `s.Value()`, element for element, and `t.hasBeenSet` is true: the
payload replaces what `t` held.  `IntSlice` and `Int64Slice` share this
code. -/
theorem set_serialize_round_trip (rt : Runtime) (s t : IntSlice)
    (hs : ∀ x ∈ s.Value.elems, inInt64 x) :
    (t.Set rt (s.Serialize rt)).2 = none ∧
    (t.Set rt (s.Serialize rt)).1.Value = s.Value ∧
    (t.Set rt (s.Serialize rt)).1.Value.elems = s.Value.elems ∧
    (t.Set rt (s.Serialize rt)).1.hasBeenSet = true := by
  have hp : HasPrefix (s.Serialize rt) rt.slPfx = true := by
    simp [HasPrefix, IntSlice.Serialize, String.data_append]
  have hr : Replace1 (s.Serialize rt) rt.slPfx = jsonMarshal s.slice := by
    simp only [Replace1, IntSlice.Serialize, String.data_append, removeFirst_append]
  have hd := decodeIntArray_jsonMarshal s.slice hs
  have hv : (t.Set rt (s.Serialize rt)).1.Value = s.Value := by
    simp only [IntSlice.Set, hp, if_true, hr, jsonUnmarshal, hd, IntSlice.Value]
  exact ⟨(Set_prefixed rt t _ hp).1, hv, by rw [hv], (Set_prefixed rt t _ hp).2⟩

/-- C1, at the source `3, -4` and a fresh target holding the default `7`. -/
theorem set_serialize_round_trip_witness :
    ((NewIntSlice [7]).Set exampleRuntime
        ((⟨some [3, -4], true⟩ : IntSlice).Serialize exampleRuntime)).1.Value = some [3, -4] :=
  (set_serialize_round_trip exampleRuntime ⟨some [3, -4], true⟩ (NewIntSlice [7])
    (by decide)).2.1

/-! ## `IntSliceFlag.Apply` at work -/

/-- C5, at a failing input: the flag `n` declared with the default `9` and
bound to `THE_INTS`, which holds `1, 2,3`.  `Apply` returns no error and sets
`HasBeenSet`, but the cell it registers under `n` is a new zero cell: a
lookup by name reads the nil slice, not `1, 2, 3`, which stay in a cell no
name is bound to. -/
theorem apply_registers_empty_cell_after_env :
    (intSliceFlag "n" [] ["THE_INTS"] (some 0)).Apply exampleRuntime ⟨[NewIntSlice [9]], []⟩
      = .returned (none,
          { intSliceFlag "n" [] ["THE_INTS"] (some 2) with HasBeenSet := true },
          ⟨[NewIntSlice [9], ⟨some [1, 2, 3], true⟩, ⟨none, false⟩], [("n", 2)]⟩) ∧
    lookupIntSlice
      ⟨[NewIntSlice [9], ⟨some [1, 2, 3], true⟩, ⟨none, false⟩], [("n", 2)]⟩ "n" = none := by
  decide

/-- C6, at a failing input: the flag `n` declared with the defaults `1, 2`
and no environment or file value (and likewise when the variable it is
bound to is set to the empty string).  `Apply` leaves `HasBeenSet` false,
but the cell it registers under `n` is a new zero cell: a lookup by name
reads the nil slice, not the defaults `1, 2`. -/
theorem apply_registers_empty_cell_for_defaults :
    (intSliceFlag "n" [] [] (some 0)).Apply exampleRuntime ⟨[NewIntSlice [1, 2]], []⟩
      = .returned (none, intSliceFlag "n" [] [] (some 1),
          ⟨[NewIntSlice [1, 2], ⟨none, false⟩], [("n", 1)]⟩) ∧
    (intSliceFlag "n" [] ["EMPTY"] (some 0)).Apply exampleRuntime ⟨[NewIntSlice [1, 2]], []⟩
      = .returned (none, intSliceFlag "n" [] ["EMPTY"] (some 1),
          ⟨[NewIntSlice [1, 2], ⟨none, false⟩], [("n", 1)]⟩) ∧
    lookupIntSlice ⟨[NewIntSlice [1, 2], ⟨none, false⟩], [("n", 1)]⟩ "n" = none := by
  decide

/-- C7, at a failing input: the flag `n` with the alias `a` and a non-nil
`Value`.  After `Apply` the two names are bound to two different cells, only
the last of which is the descriptor's `Value`; a `Set` through `n` is not
seen through `a`. -/
theorem apply_registers_a_cell_per_name :
    (intSliceFlag "n" ["a"] [] (some 0)).Apply exampleRuntime ⟨[NewIntSlice []], []⟩
      = .returned (none, intSliceFlag "n" ["a"] [] (some 2),
          ⟨[NewIntSlice [], ⟨none, false⟩, ⟨none, false⟩], [("n", 1), ("a", 2)]⟩) ∧
    lookupIntSlice
      (Store.SetByName exampleRuntime
        ⟨[NewIntSlice [], ⟨none, false⟩, ⟨none, false⟩], [("n", 1), ("a", 2)]⟩ "n" "5") "n"
      = some [5] ∧
    lookupIntSlice
      (Store.SetByName exampleRuntime
        ⟨[NewIntSlice [], ⟨none, false⟩, ⟨none, false⟩], [("n", 1), ("a", 2)]⟩ "n" "5") "a"
      = none := by
  decide

/-! ## `GenericFlag.Apply` -/

theorem Var_returned {κ : Type} (st st2 : Store κ) (value : Option Ptr) (name : String)
    (h : st.Var value name = .returned st2) :
    ∃ p, value = some p ∧ st2 = { st with formal := st.formal ++ [(name, p)] } := by
  unfold Store.Var at h
  split at h
  · cases h
  · cases value with
    | none => cases h
    | some p =>
      simp only at h
      split at h
      · cases h
      · injection h with h
        exact ⟨p, rfl, h.symm⟩

theorem generic_register_returned {σ : Type} (f : GenericFlag) (p : Ptr)
    (hv : f.Value = some p) (names : List String) (st st2 : Store (GenericCell σ))
    (h : GenericFlag.register f st names = .returned st2) :
    st2.heap = st.heap ∧ st2.formal = st.formal ++ names.map (fun n => (n, p)) := by
  induction names generalizing st with
  | nil =>
    simp only [GenericFlag.register] at h
    injection h with h
    subst h
    simp
  | cons name rest ih =>
    simp only [GenericFlag.register] at h
    cases hV : st.Var f.Value name with
    | panicked => rw [hV] at h; cases h
    | returned st1 =>
      rw [hV] at h
      obtain ⟨q, hq, hst1⟩ := Var_returned st st1 f.Value name hV
      rw [hv] at hq
      injection hq with hq
      subst hq
      obtain ⟨h1, h2⟩ := ih st1 h
      rw [h1, h2, hst1]
      simp

/-- C8. For a `GenericFlag` whose `Value` is not nil, an `Apply` that returns
no error has registered the descriptor's own `Value` under every name of
`Names()`, in order, and changed no other registration.  When the resolver
found a non-empty `v`, the cell has received the one call `Set(v)`, with `v`
as resolved, and `HasBeenSet` is true; when the resolver found nothing, or
the empty string, no cell has changed (no `Set` call) and `HasBeenSet` is as
before. -/
theorem generic_apply_registers_own_value {σ ε : Type} (rt : Runtime) (impl : GenericImpl σ ε)
    (f f2 : GenericFlag) (st st2 : Store (GenericCell σ)) (p : Ptr)
    (hv : f.Value = some p)
    (h : f.Apply rt impl st = .returned (none, f2, st2)) :
    f2.Value = some p ∧
    st2.formal = st.formal ++ (f.Names rt).map (fun n => (n, p)) ∧
    (((rt.flagFromEnvOrFile f.EnvVars f.FilePath).2 = true ∧
        (rt.flagFromEnvOrFile f.EnvVars f.FilePath).1 ≠ "") →
      ∃ c, st.heap[p]? = some c ∧
        st2.heap = st.heap.set p
          { state := (impl.Set c.state (rt.flagFromEnvOrFile f.EnvVars f.FilePath).1).1,
            calls := c.calls ++ [(rt.flagFromEnvOrFile f.EnvVars f.FilePath).1] } ∧
        f2.HasBeenSet = true) ∧
    (((rt.flagFromEnvOrFile f.EnvVars f.FilePath).2 = false ∨
        (rt.flagFromEnvOrFile f.EnvVars f.FilePath).1 = "") →
      st2.heap = st.heap ∧ f2.HasBeenSet = f.HasBeenSet) := by
  unfold GenericFlag.Apply at h
  simp only at h
  by_cases hr : ((rt.flagFromEnvOrFile f.EnvVars f.FilePath).2 &&
      (rt.flagFromEnvOrFile f.EnvVars f.FilePath).1 != "") = true
  · rw [if_pos hr, hv] at h
    simp only at h
    have hr' : (rt.flagFromEnvOrFile f.EnvVars f.FilePath).2 = true ∧
        (rt.flagFromEnvOrFile f.EnvVars f.FilePath).1 ≠ "" := by
      simpa using hr
    cases hc : st.heap[p]? with
    | none => rw [hc] at h; cases h
    | some c =>
      rw [hc] at h
      simp only at h
      cases he : (impl.Set c.state (rt.flagFromEnvOrFile f.EnvVars f.FilePath).1).2 with
      | some e => rw [he] at h; simp at h
      | none =>
        rw [he] at h
        simp only at h
        split at h
        · cases h
        · rename_i st3 hreg
          injection h with h
          simp only [Prod.mk.injEq, true_and] at h
          obtain ⟨hf, hst⟩ := h
          subst hf hst
          obtain ⟨h1, h2⟩ := generic_register_returned _ p rfl _ _ _ hreg
          refine ⟨rfl, h2, fun _ => ⟨c, rfl, h1, rfl⟩, ?_⟩
          rintro (h0 | h0)
          · rw [hr'.1] at h0; cases h0
          · exact absurd h0 hr'.2
  · rw [if_neg hr] at h
    split at h
    · cases h
    · rename_i st3 hreg
      injection h with h
      simp only [Prod.mk.injEq, true_and] at h
      obtain ⟨hf, hst⟩ := h
      subst hf hst
      obtain ⟨h1, h2⟩ := generic_register_returned _ p hv _ _ _ hreg
      refine ⟨hv, h2, fun hh => ?_, fun _ => ⟨h1, rfl⟩⟩
      exfalso
      apply hr
      simp [hh.1, hh.2]

/-- C8, at the flag `g` with the alias `h`, bound to `THE_INTS` (which holds
`1, 2,3`), its `Value` the object at address `0`. -/
theorem generic_apply_registers_own_value_witness :
    (⟨[⟨"1, 2,3", ["1, 2,3"]⟩], [("g", 0), ("h", 0)]⟩ : Store (GenericCell String)).formal
      = [] ++ (GenericFlag.Names exampleRuntime (genericFlag "g" ["h"] ["THE_INTS"] (some 0))).map
          (fun n => (n, 0)) :=
  (generic_apply_registers_own_value exampleRuntime lastString
    (genericFlag "g" ["h"] ["THE_INTS"] (some 0))
    { genericFlag "g" ["h"] ["THE_INTS"] (some 0) with HasBeenSet := true }
    ⟨[⟨"", []⟩], []⟩ ⟨[⟨"1, 2,3", ["1, 2,3"]⟩], [("g", 0), ("h", 0)]⟩ 0 rfl (by decide)).2.1

/-! ## The precedence merger -/

example : keyPath "top.test" = ["top", "test"] := by decide
example : (nestedJSON.lookup "top.test").bind Doc.asInt = some 15 := by decide
example : (nestedJSON.lookup "top.Test").bind Doc.asInt = none := by decide
example : (IntFlag.Resolve (specResolve [] []) none simpleJSON ⟨"test", [], "", 7, false⟩)
    = .ok ⟨"test", [], "", 15, false⟩ := by decide

/-- C3. A descriptor that is already set, by a command-line token or by a
bound environment variable, passes the merger unchanged whatever the file
source holds under its name.  So a valid command-line token decides the
resolved value, and without a token a valid environment value does.  With
the file value 15: the token `--test 7` resolves to 7, and `THE_TEST=10`
without a token resolves to 10. -/
theorem merger_skips_flags_already_set :
    (∀ (doc : Doc) (d : IntFlag), d.HasBeenSet = true →
      d.ApplyInputSourceValue doc = .ok d) ∧
    (∀ (resolve : List String → String → String × Bool) (doc : Doc) (d d1 : IntFlag)
        (raw : String) (v : Int),
      d.Apply resolve = .ok d1 → ParseInt raw = .ok v →
      d.Resolve resolve (some raw) doc = .ok { d1 with Value := v, HasBeenSet := true }) ∧
    (∀ (resolve : List String → String → String × Bool) (doc : Doc) (d : IntFlag)
        (val : String) (v : Int),
      resolve d.EnvVars d.FilePath = (val, true) → val ≠ "" → ParseInt val = .ok v →
      d.Resolve resolve none doc = .ok { d with Value := v, HasBeenSet := true }) ∧
    IntFlag.Resolve (specResolve [] []) (some "7") simpleJSON ⟨"test", [], "", 0, false⟩
      = .ok ⟨"test", [], "", 7, true⟩ ∧
    IntFlag.Resolve (specResolve [("THE_TEST", "10")] []) none simpleJSON
        ⟨"test", ["THE_TEST"], "", 0, false⟩
      = .ok ⟨"test", ["THE_TEST"], "", 10, true⟩ := by
  refine ⟨?_, ?_, ?_, by decide, by decide⟩
  · intro doc d h
    simp [IntFlag.ApplyInputSourceValue, h]
  · intro resolve doc d d1 raw v h1 h2
    simp [IntFlag.Resolve, h1, IntFlag.ParseToken, h2, IntFlag.ApplyInputSourceValue]
  · intro resolve doc d val v h1 h2 h3
    simp [IntFlag.Resolve, IntFlag.Apply, h1, h2, h3, IntFlag.ParseToken,
      IntFlag.ApplyInputSourceValue]

/-- C4. A descriptor that nothing has set (no command-line token, no
environment or file-resolver value) leaves the merger with the file source's
integer at its key path, a plain name or a dotted one looked up level by
level, in place of the declared default, and with the declared default and
no error when the key is absent.  With the default 7: `{"test": 15}` gives
`test` the value 15, `{"top": {"test": 15}}` gives `top.test` the value 15,
and a source without the key leaves 7. -/
theorem merger_applies_file_value_to_unset_flag :
    (∀ (doc : Doc) (d : IntFlag) (x : Doc) (n : Int), d.HasBeenSet = false →
      doc.lookup d.Name = some x → x.asInt = some n →
      d.ApplyInputSourceValue doc = .ok { d with Value := n }) ∧
    (∀ (doc : Doc) (d : IntFlag), d.HasBeenSet = false → doc.lookup d.Name = none →
      d.ApplyInputSourceValue doc = .ok d) ∧
    (∀ (resolve : List String → String → String × Bool) (doc : Doc) (d : IntFlag),
      (resolve d.EnvVars d.FilePath).2 = false ∨ (resolve d.EnvVars d.FilePath).1 = "" →
      d.Resolve resolve none doc = d.ApplyInputSourceValue doc) ∧
    IntFlag.Resolve (specResolve [] []) none simpleJSON ⟨"test", [], "", 7, false⟩
      = .ok ⟨"test", [], "", 15, false⟩ ∧
    IntFlag.Resolve (specResolve [] []) none nestedJSON ⟨"top.test", [], "", 7, false⟩
      = .ok ⟨"top.test", [], "", 15, false⟩ ∧
    IntFlag.Resolve (specResolve [] []) none simpleJSON ⟨"other", [], "", 7, false⟩
      = .ok ⟨"other", [], "", 7, false⟩ ∧
    IntFlag.Resolve (specResolve [] []) none nestedJSON ⟨"top.other", [], "", 7, false⟩
      = .ok ⟨"top.other", [], "", 7, false⟩ := by
  refine ⟨?_, ?_, ?_, by decide, by decide, by decide, by decide⟩
  · intro doc d x n h1 h2 h3
    simp [IntFlag.ApplyInputSourceValue, h1, h2, h3]
  · intro doc d h1 h2
    simp [IntFlag.ApplyInputSourceValue, h1, h2]
  · intro resolve doc d h
    have hc : ((resolve d.EnvVars d.FilePath).2 && (resolve d.EnvVars d.FilePath).1 != "")
        = false := by
      rcases h with h | h <;> simp [h]
    simp [IntFlag.Resolve, IntFlag.Apply, hc, IntFlag.ParseToken]

/-! ## `Timestamp.Set` -/

/-- C13. For a `Timestamp` cell with layout `L`: when `raw` does not parse
under `L`, `Set(raw)` returns the parse error and the cell is as before
(stored timestamp, `hasBeenSet` and layout); when `raw` parses under `L`,
`Set(raw)` returns no error, `Value()` points to the parsed time and
`hasBeenSet` is true, whatever the cell held before, and the layout stays. -/
theorem timestamp_set_parses_or_leaves_cell {τ : Type} (lib : TimeLib τ) (t : Timestamp τ)
    (raw : String) :
    (∀ e, lib.Parse t.layout raw = .error e → t.Set lib raw = (t, some e)) ∧
    (∀ v, lib.Parse t.layout raw = .ok v →
      (t.Set lib raw).2 = none ∧ (t.Set lib raw).1.Value = some v ∧
      (t.Set lib raw).1.hasBeenSet = true ∧ (t.Set lib raw).1.layout = t.layout) := by
  constructor
  · intro e h
    simp [Timestamp.Set, h]
  · intro v h
    simp [Timestamp.Set, h, Timestamp.Value]

/-! ## The 64-bit range of `IntSlice.Set` -/

/-- C14. With `int` 64 bits wide, `Set` accepts a base-10 literal exactly
when its value lies in the signed 64-bit range: it then appends that value,
and otherwise returns an error and appends nothing.  The largest and the
smallest 64-bit literals are appended with their exact value; the literals
one beyond them are rejected.  The serialization prefix is taken to be
reserved (no literal begins with it). -/
theorem set_accepts_exactly_int64_literals (rt : Runtime) (hres : rt.Reserved) (f : IntSlice)
    (raw : String) (hlit : isIntLiteral raw = true) :
    ((f.Set rt raw).2 = none ↔ inInt64 (literalValue raw)) ∧
    (inInt64 (literalValue raw) →
      (f.Set rt raw).1.Value
        = some ((if f.hasBeenSet then f.slice.elems else []) ++ [literalValue raw])) ∧
    (¬ inInt64 (literalValue raw) →
      (f.Set rt raw).1.Value.elems = (if f.hasBeenSet then f.slice.elems else [])) ∧
    (⟨some [1], true⟩ : IntSlice).Set exampleRuntime "9223372036854775807"
      = (⟨some [1, 9223372036854775807], true⟩, none) ∧
    (⟨some [1], true⟩ : IntSlice).Set exampleRuntime "-9223372036854775808"
      = (⟨some [1, -9223372036854775808], true⟩, none) ∧
    (⟨some [1], true⟩ : IntSlice).Set exampleRuntime "9223372036854775808"
      = (⟨some [1], true⟩, some NumError.ErrRange) ∧
    (⟨some [1], true⟩ : IntSlice).Set exampleRuntime "-9223372036854775809"
      = (⟨some [1], true⟩, some NumError.ErrRange) := by
  have hp : HasPrefix raw rt.slPfx = false := by
    cases h : HasPrefix raw rt.slPfx
    · rfl
    · have := hres raw h; rw [hlit] at this; cases this
  have herr := Set_error_iff rt f raw
  refine ⟨?_, ?_, ?_, by decide, by decide, by decide, by decide⟩
  · constructor
    · intro h
      by_contra hn
      exact (herr.2 ⟨hp, fun hh => hn hh.2⟩) h
    · intro h
      by_contra hn
      exact (herr.1 hn).2 ⟨hlit, h⟩
  · intro h
    rw [Set_of_literal rt f raw hp hlit h]
    rfl
  · intro h
    have he : (f.Set rt raw).2 ≠ none := herr.2 ⟨hp, fun hh => h hh.2⟩
    rw [Set_of_error rt f raw he]
    cases hb : f.hasBeenSet <;> simp [IntSlice.Value, GoSlice.elems]

/-- C14, at the smallest 64-bit literal and a cell holding `1`. -/
theorem set_accepts_exactly_int64_literals_witness :
    ((⟨some [1], true⟩ : IntSlice).Set exampleRuntime "-9223372036854775808").2 = none ↔
      inInt64 (literalValue "-9223372036854775808") :=
  (set_accepts_exactly_int64_literals exampleRuntime exampleRuntime_reserved ⟨some [1], true⟩
    "-9223372036854775808" (by decide)).1

/-! ## `TakesValue` and `GetValue` -/

/-- C17, at a failing input: `TakesValue()` of a `GenericFlag` returns false,
while that of an `IntSliceFlag` (`Int64SliceFlag`) and of a `TimestampFlag`
returns true. -/
theorem generic_flag_takes_no_value :
    (∀ f : GenericFlag, f.TakesValue = false) ∧
    (genericFlag "g" [] [] (some 0)).TakesValue = false ∧
    (∀ f : IntSliceFlag, f.TakesValue = true) ∧
    (∀ f : TimestampFlag, f.TakesValue = true) :=
  ⟨fun _ => rfl, rfl, fun _ => rfl, fun _ => rfl⟩

/-- C18, at a failing input: the flag `n` whose `Value` holds `1, 2` takes a
value, and the string representation of that value is `[]int{1, 2}`, yet
`GetValue()` returns the empty string, as it does for every descriptor. -/
theorem get_value_is_always_empty :
    (∀ f : IntSliceFlag, f.GetValue = "") ∧
    (∀ f : TimestampFlag, f.GetValue = "") ∧
    (intSliceFlag "n" [] [] (some 0)).GetValue = "" ∧
    (intSliceFlag "n" [] [] (some 0)).TakesValue = true ∧
    (NewIntSlice [1, 2]).String = "[]int\x7b1, 2\x7d" := by
  refine ⟨fun _ => rfl, fun _ => rfl, rfl, rfl, by decide⟩

/-! ## What `Apply` does to `HasBeenSet` and to the flag set -/

theorem applyError_text_contains {ε : Type} (quote : String → String) (errText : ε → String)
    (kind : String) (e : ApplyError ε) :
    Contains (e.Error quote errText kind) e.flagName ∧
    Contains (e.Error quote errText kind) (quote e.val) ∧
    Contains (e.Error quote errText kind) (errText e.err) := by
  unfold Contains ApplyError.Error
  simp only [String.data_append]
  refine ⟨⟨"could not parse ".data ++ (quote e.val).data ++ " as ".data ++ kind.data
      ++ "value for flag ".data, ": ".data ++ (errText e.err).data, by simp⟩,
    ⟨"could not parse ".data, " as ".data ++ kind.data ++ "value for flag ".data
      ++ e.flagName.data ++ ": ".data ++ (errText e.err).data, by simp⟩,
    ⟨"could not parse ".data ++ (quote e.val).data ++ " as ".data ++ kind.data
      ++ "value for flag ".data ++ e.flagName.data ++ ": ".data, [], by simp⟩⟩

theorem intSlice_register_hasBeenSet (names : List String) (f f2 : IntSliceFlag)
    (st st2 : Store IntSlice) (h : IntSliceFlag.register f st names = .returned (f2, st2)) :
    f2.HasBeenSet = f.HasBeenSet := by
  induction names generalizing f st with
  | nil =>
    simp only [IntSliceFlag.register] at h
    injection h with h
    injection h with h1 _
    rw [← h1]
  | cons n rest ih =>
    simp only [IntSliceFlag.register] at h
    split at h
    · cases h
    · have := ih _ _ h
      rw [this]
      cases f.Value <;> rfl

theorem timestamp_register_hasBeenSet {τ : Type} (names : List String)
    (f f2 : TimestampFlag) (st st2 : Store (Timestamp τ))
    (h : TimestampFlag.register f st names = .returned (f2, st2)) :
    f2.HasBeenSet = f.HasBeenSet := by
  induction names generalizing f st with
  | nil =>
    simp only [TimestampFlag.register] at h
    injection h with h
    injection h with h1 _
    rw [← h1]
  | cons n rest ih =>
    simp only [TimestampFlag.register] at h
    split at h
    · cases h
    · have := ih _ _ h
      rw [this]
      cases f.Value <;> rfl

/-- After `IntSliceFlag.Apply` returns, `HasBeenSet` is true exactly when it
was true before or a non-empty resolved value was set without error. -/
theorem intSlice_apply_hasBeenSet (rt : Runtime) (f f2 : IntSliceFlag)
    (st st2 : Store IntSlice) (e : Option (ApplyError NumError))
    (h : f.Apply rt st = .returned (e, f2, st2)) :
    f2.HasBeenSet = (f.HasBeenSet || (e.isNone &&
      ((rt.flagFromEnvOrFile f.EnvVars f.FilePath).2 &&
        (rt.flagFromEnvOrFile f.EnvVars f.FilePath).1 != ""))) := by
  unfold IntSliceFlag.Apply at h
  simp only at h
  split at h
  · rename_i hc
    split at h
    · injection h with h
      simp only [Prod.mk.injEq] at h
      obtain ⟨h1, h2, -⟩ := h
      subst h1 h2
      simp
    · split at h
      · cases h
      · rename_i f3 st3 hreg
        injection h with h
        simp only [Prod.mk.injEq] at h
        obtain ⟨h1, h2, -⟩ := h
        subst h1 h2
        rw [intSlice_register_hasBeenSet _ _ _ _ _ hreg, hc]
        simp
  · rename_i hc
    split at h
    · cases h
    · rename_i f3 st3 hreg
      injection h with h
      simp only [Prod.mk.injEq] at h
      obtain ⟨h1, h2, -⟩ := h
      subst h1 h2
      rw [intSlice_register_hasBeenSet _ _ _ _ _ hreg]
      simp only [Bool.not_eq_true] at hc
      simp [hc]

/-- After `TimestampFlag.Apply` returns, `HasBeenSet` is true exactly when it
was true before or a non-empty resolved value was set without error. -/
theorem timestamp_apply_hasBeenSet {τ : Type} (rt : Runtime) (lib : TimeLib τ)
    (f f2 : TimestampFlag) (st st2 : Store (Timestamp τ)) (e : Option (ApplyError String))
    (h : f.Apply rt lib st = .returned (e, f2, st2)) :
    f2.HasBeenSet = (f.HasBeenSet || (e.isNone &&
      ((rt.flagFromEnvOrFile f.EnvVars f.FilePath).2 &&
        (rt.flagFromEnvOrFile f.EnvVars f.FilePath).1 != ""))) := by
  unfold TimestampFlag.Apply at h
  simp only at h
  split at h
  · rename_i hc
    split at h
    · injection h with h
      simp only [Prod.mk.injEq] at h
      obtain ⟨h1, h2, -⟩ := h
      subst h1 h2
      simp
    · split at h
      · cases h
      · rename_i f3 st3 hreg
        injection h with h
        simp only [Prod.mk.injEq] at h
        obtain ⟨h1, h2, -⟩ := h
        subst h1 h2
        rw [timestamp_register_hasBeenSet _ _ _ _ _ hreg, hc]
        simp
  · rename_i hc
    split at h
    · cases h
    · rename_i f3 st3 hreg
      injection h with h
      simp only [Prod.mk.injEq] at h
      obtain ⟨h1, h2, -⟩ := h
      subst h1 h2
      rw [timestamp_register_hasBeenSet _ _ _ _ _ hreg]
      simp only [Bool.not_eq_true] at hc
      simp [hc]

/-- After `GenericFlag.Apply` returns, `HasBeenSet` is true exactly when it
was true before or a non-empty resolved value was set without error. -/
theorem generic_apply_hasBeenSet {σ ε : Type} (rt : Runtime) (impl : GenericImpl σ ε)
    (f f2 : GenericFlag) (st st2 : Store (GenericCell σ)) (e : Option (ApplyError ε))
    (h : f.Apply rt impl st = .returned (e, f2, st2)) :
    f2.HasBeenSet = (f.HasBeenSet || (e.isNone &&
      ((rt.flagFromEnvOrFile f.EnvVars f.FilePath).2 &&
        (rt.flagFromEnvOrFile f.EnvVars f.FilePath).1 != ""))) := by
  unfold GenericFlag.Apply at h
  simp only at h
  split at h
  · rename_i hc
    split at h
    · cases h
    · split at h
      · cases h
      · split at h
        · injection h with h
          simp only [Prod.mk.injEq] at h
          obtain ⟨h1, h2, -⟩ := h
          subst h1 h2
          simp
        · split at h
          · cases h
          · injection h with h
            simp only [Prod.mk.injEq] at h
            obtain ⟨h1, h2, -⟩ := h
            subst h1 h2
            simp [hc]
  · rename_i hc
    split at h
    · cases h
    · injection h with h
      simp only [Prod.mk.injEq] at h
      obtain ⟨h1, h2, -⟩ := h
      subst h1 h2
      simp only [Bool.not_eq_true] at hc
      simp [hc]

/-- C16. For a `GenericFlag`, an `IntSliceFlag` (`Int64SliceFlag`) and a
`TimestampFlag` whose `HasBeenSet` is false: after `Apply` has returned
without error, `IsSet()` is true if and only if the resolver found a value
that is not empty.  So for the flag `n` bound to `THE_INTS` (set to
`1, 2,3`) `IsSet()` is true after `Apply`, and for the same flag bound to
nothing, or to `EMPTY` (set to the empty string), it is false. -/
theorem is_set_iff_resolver_found_value :
    (∀ {σ ε : Type} (rt : Runtime) (impl : GenericImpl σ ε) (f f2 : GenericFlag)
        (st st2 : Store (GenericCell σ)),
      f.HasBeenSet = false → f.Apply rt impl st = .returned (none, f2, st2) →
      (f2.IsSet = true ↔ ((rt.flagFromEnvOrFile f.EnvVars f.FilePath).2 = true ∧
        (rt.flagFromEnvOrFile f.EnvVars f.FilePath).1 ≠ ""))) ∧
    (∀ (rt : Runtime) (f f2 : IntSliceFlag) (st st2 : Store IntSlice),
      f.HasBeenSet = false → f.Apply rt st = .returned (none, f2, st2) →
      (f2.IsSet = true ↔ ((rt.flagFromEnvOrFile f.EnvVars f.FilePath).2 = true ∧
        (rt.flagFromEnvOrFile f.EnvVars f.FilePath).1 ≠ ""))) ∧
    (∀ {τ : Type} (rt : Runtime) (lib : TimeLib τ) (f f2 : TimestampFlag)
        (st st2 : Store (Timestamp τ)),
      f.HasBeenSet = false → f.Apply rt lib st = .returned (none, f2, st2) →
      (f2.IsSet = true ↔ ((rt.flagFromEnvOrFile f.EnvVars f.FilePath).2 = true ∧
        (rt.flagFromEnvOrFile f.EnvVars f.FilePath).1 ≠ ""))) ∧
    IntSliceFlag.isSetAfter
      ((intSliceFlag "n" [] ["THE_INTS"] none).Apply exampleRuntime ⟨[], []⟩) = some true ∧
    IntSliceFlag.isSetAfter
      ((intSliceFlag "n" [] [] (some 0)).Apply exampleRuntime ⟨[NewIntSlice []], []⟩)
      = some false ∧
    IntSliceFlag.isSetAfter
      ((intSliceFlag "n" [] ["EMPTY"] (some 0)).Apply exampleRuntime ⟨[NewIntSlice []], []⟩)
      = some false := by
  refine ⟨?_, ?_, ?_, by decide, by decide, by decide⟩
  · intro σ ε rt impl f f2 st st2 hf h
    have := generic_apply_hasBeenSet rt impl f f2 st st2 none h
    simp only [GenericFlag.IsSet, this, hf]
    simp
  · intro rt f f2 st st2 hf h
    have := intSlice_apply_hasBeenSet rt f f2 st st2 none h
    simp only [IntSliceFlag.IsSet, this, hf]
    simp
  · intro τ rt lib f f2 st st2 hf h
    have := timestamp_apply_hasBeenSet rt lib f f2 st st2 none h
    simp only [TimestampFlag.IsSet, this, hf]
    simp

/-- C19. `Apply` never clears `HasBeenSet`: for a `GenericFlag`, an
`IntSliceFlag` (`Int64SliceFlag`) and a `TimestampFlag`, if `HasBeenSet` is
true before `Apply` it is true when `Apply` has returned, with or without an
error and whatever the resolver found.  So when `Apply` runs twice on one
descriptor, the environment variable being there for the first run only,
`IsSet()` is still true after the second run. -/
theorem apply_never_clears_has_been_set :
    (∀ {σ ε : Type} (rt : Runtime) (impl : GenericImpl σ ε) (f f2 : GenericFlag)
        (st st2 : Store (GenericCell σ)) (e : Option (ApplyError ε)),
      f.HasBeenSet = true → f.Apply rt impl st = .returned (e, f2, st2) →
      f2.IsSet = true) ∧
    (∀ (rt : Runtime) (f f2 : IntSliceFlag) (st st2 : Store IntSlice)
        (e : Option (ApplyError NumError)),
      f.HasBeenSet = true → f.Apply rt st = .returned (e, f2, st2) → f2.IsSet = true) ∧
    (∀ {τ : Type} (rt : Runtime) (lib : TimeLib τ) (f f2 : TimestampFlag)
        (st st2 : Store (Timestamp τ)) (e : Option (ApplyError String)),
      f.HasBeenSet = true → f.Apply rt lib st = .returned (e, f2, st2) →
      f2.IsSet = true) ∧
    (runtimeWithEnv []).flagFromEnvOrFile ["THE_INTS"] "" = ("", false) ∧
    IntSliceFlag.isSetAfter
      (IntSliceFlag.ApplyTwice exampleRuntime (runtimeWithEnv [])
        (intSliceFlag "n" [] ["THE_INTS"] none) ⟨[], []⟩) = some true := by
  refine ⟨?_, ?_, ?_, by decide, by decide⟩
  · intro σ ε rt impl f f2 st st2 e hf h
    have := generic_apply_hasBeenSet rt impl f f2 st st2 e h
    simp [GenericFlag.IsSet, this, hf]
  · intro rt f f2 st st2 e hf h
    have := intSlice_apply_hasBeenSet rt f f2 st st2 e h
    simp [IntSliceFlag.IsSet, this, hf]
  · intro τ rt lib f f2 st st2 e hf h
    have := timestamp_apply_hasBeenSet rt lib f f2 st st2 e h
    simp [TimestampFlag.IsSet, this, hf]

/-! ## `Apply` on a value the cell rejects -/

theorem setSegments_error (rt : Runtime) (segs : List String) (cell : IntSlice)
    (h : ∃ s ∈ segs, ((⟨none, false⟩ : IntSlice).Set rt (TrimSpace s)).2 ≠ none) :
    (setSegments rt cell segs).2 ≠ none := by
  induction segs generalizing cell with
  | nil => obtain ⟨s, hs, -⟩ := h; cases hs
  | cons s rest ih =>
    simp only [setSegments]
    split
    · simp
    · rename_i c hS
      apply ih
      obtain ⟨s', hs', hrej⟩ := h
      rcases List.mem_cons.1 hs' with h1 | h1
      · subst h1
        exfalso
        have h2 := (Set_error_iff rt cell (TrimSpace s')).2
          ((Set_error_iff rt ⟨none, false⟩ (TrimSpace s')).1 hrej)
        rw [hS] at h2
        exact h2 rfl
      · exact ⟨s', h1, hrej⟩

theorem timestamp_set_layout {τ : Type} (lib : TimeLib τ) (t : Timestamp τ) (v : String) :
    (t.Set lib v).1.layout = t.layout := by
  unfold Timestamp.Set
  split <;> rfl

theorem timestamp_set_error_of_layout {τ : Type} (lib : TimeLib τ) (t u : Timestamp τ)
    (v : String) (hl : t.layout = u.layout) (h : (u.Set lib v).2 ≠ none) :
    (t.Set lib v).2 ≠ none := by
  unfold Timestamp.Set at h ⊢
  rw [hl]
  split
  · simp
  · rename_i w hw
    rw [hw] at h
    exact absurd rfl h

theorem setTimestampSegments_error {τ : Type} (lib : TimeLib τ) (segs : List String)
    (cell : Timestamp τ) (hl : cell.layout = "")
    (h : ∃ s ∈ segs, ((⟨none, false, ""⟩ : Timestamp τ).Set lib (TrimSpace s)).2 ≠ none) :
    (setTimestampSegments lib cell segs).2 ≠ none := by
  induction segs generalizing cell with
  | nil => obtain ⟨s, hs, -⟩ := h; cases hs
  | cons s rest ih =>
    simp only [setTimestampSegments]
    split
    · simp
    · rename_i c hS
      have hc : c.layout = "" := by
        have := timestamp_set_layout lib cell (TrimSpace s)
        rw [hS] at this
        rw [this, hl]
      apply ih c hc
      obtain ⟨s', hs', hrej⟩ := h
      rcases List.mem_cons.1 hs' with h1 | h1
      · subst h1
        exfalso
        have h2 := timestamp_set_error_of_layout lib cell ⟨none, false, ""⟩ (TrimSpace s') hl hrej
        rw [hS] at h2
        exact h2 rfl
      · exact ⟨s', h1, hrej⟩

/-- `IntSliceFlag.Apply` on a resolved value with a rejected segment: the
error carries the value, the name and the error of `Set`; the descriptor
changes in `Value` alone and the flag set not at all. -/
theorem intSlice_apply_rejected (rt : Runtime) (f : IntSliceFlag) (st : Store IntSlice)
    (val : String) (hr : rt.flagFromEnvOrFile f.EnvVars f.FilePath = (val, true))
    (hv : val ≠ "")
    (hrej : ∃ s ∈ SplitComma val, ((⟨none, false⟩ : IntSlice).Set rt (TrimSpace s)).2 ≠ none) :
    ∃ e, (setSegments rt ⟨none, false⟩ (SplitComma val)).2 = some e ∧
      f.Apply rt st = .returned (some { val := val, flagName := f.Name, err := e },
        { f with Value := some st.heap.length },
        { st with heap := st.heap ++ [(setSegments rt ⟨none, false⟩ (SplitComma val)).1] }) := by
  have hne := setSegments_error rt (SplitComma val) ⟨none, false⟩ hrej
  cases he : (setSegments rt ⟨none, false⟩ (SplitComma val)).2 with
  | none => exact absurd he hne
  | some e =>
    refine ⟨e, rfl, ?_⟩
    unfold IntSliceFlag.Apply
    simp only [hr, he, Store.alloc]
    simp [hv]

/-- `TimestampFlag.Apply` on a resolved value with a rejected segment. -/
theorem timestamp_apply_rejected {τ : Type} (rt : Runtime) (lib : TimeLib τ)
    (f : TimestampFlag) (st : Store (Timestamp τ))
    (val : String) (hr : rt.flagFromEnvOrFile f.EnvVars f.FilePath = (val, true))
    (hv : val ≠ "")
    (hrej : ∃ s ∈ SplitComma val,
      ((⟨none, false, ""⟩ : Timestamp τ).Set lib (TrimSpace s)).2 ≠ none) :
    ∃ e, (setTimestampSegments lib ⟨none, false, ""⟩ (SplitComma val)).2 = some e ∧
      f.Apply rt lib st = .returned (some { val := val, flagName := f.Name, err := e },
        { f with Value := some st.heap.length },
        { st with heap := st.heap ++
            [(setTimestampSegments lib ⟨none, false, ""⟩ (SplitComma val)).1] }) := by
  have hne := setTimestampSegments_error lib (SplitComma val) ⟨none, false, ""⟩ rfl hrej
  cases he : (setTimestampSegments lib ⟨none, false, ""⟩ (SplitComma val)).2 with
  | none => exact absurd he hne
  | some e =>
    refine ⟨e, rfl, ?_⟩
    unfold TimestampFlag.Apply
    simp only [hr, he, Store.alloc]
    simp [hv]

/-- `GenericFlag.Apply` on a resolved value the cell rejects. -/
theorem generic_apply_rejected {σ ε : Type} (rt : Runtime) (impl : GenericImpl σ ε)
    (f : GenericFlag) (st : Store (GenericCell σ)) (p : Ptr) (c : GenericCell σ)
    (val : String) (e : ε) (hr : rt.flagFromEnvOrFile f.EnvVars f.FilePath = (val, true))
    (hv : val ≠ "") (hp : f.Value = some p) (hc : st.heap[p]? = some c)
    (he : (impl.Set c.state val).2 = some e) :
    f.Apply rt impl st = .returned (some { val := val, flagName := f.Name, err := e }, f,
      { st with heap := st.heap.set p ⟨(impl.Set c.state val).1, c.calls ++ [val]⟩ }) := by
  unfold GenericFlag.Apply
  simp only [hr, hp, hc, he]
  simp [hv]

/-- C11, at a failing input: the flag `t`, its `Value` configured with the
layout `2006-01-02`, bound to a variable holding a single comma.  The
resolved value is not empty and its two segments are empty strings, which the
`Set` of the value cell rejects.  `Apply` replaces the cell by a new one
whose layout is empty, under which the empty string parses: it returns no
error, sets `HasBeenSet` and registers a cell under `t`.  A `GenericFlag`,
whose `Apply` calls `Set` on the cell it has, returns the error of a rejected
value, leaves `HasBeenSet` false and registers nothing. -/
theorem timestamp_apply_accepts_rejected_value :
    SplitComma "," = ["", ""] ∧ TrimSpace "" = "" ∧
    (((NewTimestamp (1970, 1, 1)).SetLayout "2006-01-02").Set exampleTime "").2
      = some "cannot parse" ∧
    (timestampFlag "t" [] ["THE_TIME"] (some 0)).Apply
        (runtimeWithEnv [("THE_TIME", ",")]) exampleTime
        ⟨[(NewTimestamp (1970, 1, 1)).SetLayout "2006-01-02"], []⟩
      = .returned (none,
          { timestampFlag "t" [] ["THE_TIME"] (some 2) with HasBeenSet := true },
          ⟨[(NewTimestamp (1970, 1, 1)).SetLayout "2006-01-02", ⟨some (0, 1, 1), true, ""⟩,
            ⟨none, false, ""⟩], [("t", 2)]⟩) ∧
    (genericFlag "g" [] ["BAD"] (some 0)).Apply (runtimeWithEnv [("BAD", "bad")]) lastString
        ⟨[⟨"", []⟩], []⟩
      = .returned (some ⟨"bad", "g", "rejected"⟩, genericFlag "g" [] ["BAD"] (some 0),
          ⟨[⟨"", ["bad"]⟩], []⟩) := by
  refine ⟨by decide, by decide, by decide, rfl, by decide⟩

/-- C12, at a failing input: the flag `t`, its `Value` configured with the
layout `2006-01-02`, bound to a variable holding `2020-01-02`, which is a
timestamp under that layout.  `Apply` replaces the cell by a new one whose
layout is empty before it calls `Set`, so the value does not parse: `Apply`
returns an error, `HasBeenSet` stays false and no name is registered. -/
theorem timestamp_apply_drops_layout :
    exampleTime.Parse "2006-01-02" "2020-01-02" = .ok (2020, 1, 2) ∧
    (timestampFlag "t" [] ["THE_TIME"] (some 0)).Apply
        (runtimeWithEnv [("THE_TIME", "2020-01-02")]) exampleTime
        ⟨[(NewTimestamp (1970, 1, 1)).SetLayout "2006-01-02"], []⟩
      = .returned (some ⟨"2020-01-02", "t", "extra text"⟩,
          timestampFlag "t" [] ["THE_TIME"] (some 1),
          ⟨[(NewTimestamp (1970, 1, 1)).SetLayout "2006-01-02", ⟨none, false, ""⟩], []⟩) := by
  decide

/-! ## The map-backed input source -/

/-- C15. For a map-backed input source, `Duration(name)` returns `d` without
error when the value stored under `name` is the native duration `d`, returns
the parsed duration without error when it is a string of the duration
grammar, and returns an error when it is of any other type.  The string `1m`
parses to exactly one minute, the native `time.Minute`; in the source of the
test the native minute and the string `1m` both give one minute and the
integer 1000 gives an error. -/
theorem map_duration_native_or_string :
    (∀ (fractional : String → Option Int) (m : MapInputSource) (name : String) (d : Int),
      m.lookup name = some (.duration d) → m.Duration fractional name = .ok d) ∧
    (∀ (fractional : String → Option Int) (m : MapInputSource) (name s : String) (d : Int),
      m.lookup name = some (.str s) → ParseDuration fractional s = some d →
      m.Duration fractional name = .ok d) ∧
    (∀ (fractional : String → Option Int) (m : MapInputSource) (name : String) (v : MapValue),
      m.lookup name = some v → (∀ d, v ≠ .duration d) → (∀ s, v ≠ .str s) →
      m.Duration fractional name = .error (.TypeMismatchError name)) ∧
    (∀ fractional : String → Option Int, ParseDuration fractional "1m" = some Minute) ∧
    (∀ fractional : String → Option Int,
      durationSource.Duration fractional "duration_of_duration_type" = .ok Minute ∧
      durationSource.Duration fractional "duration_of_string_type" = .ok Minute ∧
      durationSource.Duration fractional "duration_of_int_type"
        = .error (.TypeMismatchError "duration_of_int_type")) := by
  refine ⟨?_, ?_, ?_, ?_, ?_⟩
  · intro fractional m name d h
    simp [MapInputSource.Duration, h]
  · intro fractional m name s d h hd
    simp [MapInputSource.Duration, h, hd]
  · intro fractional m name v h h1 h2
    unfold MapInputSource.Duration
    rw [h]
    cases v with
    | duration d => exact absurd rfl (h1 d)
    | str s => exact absurd rfl (h2 s)
    | int n => rfl
    | float w fr => rfl
    | bool b => rfl
    | map fs => rfl
  · intro fractional
    rfl
  · intro fractional
    exact ⟨rfl, rfl, rfl⟩

/-! ## `App.Setup` -/

theorem setupHelp_helpName (env : AppEnv) (a : App) :
    (App.setupHelp env a).HelpName = a.HelpName := by
  simp only [App.setupHelp]
  split <;> rfl

theorem setupHooks_helpName (env : AppEnv) (a : App) :
    (App.setupHooks env a).HelpName = a.HelpName := rfl

/-- C20, at a failing input: an `App` named `myapp` with an empty `HelpName`,
run as `/usr/local/bin/prog`.  After `Setup` the `HelpName` is `prog`, the
base name of the program, not `myapp`: on an `App` not yet set up, an empty
`HelpName` always becomes `filepath.Base(os.Args[0])`, whatever `Name` is. -/
theorem setup_help_name_is_program_name :
    (∀ (env : AppEnv) (a : App), a.didSetup = false → a.HelpName = "" →
      (a.Setup env).HelpName = filepathBase env.progPath) ∧
    (appNamed "myapp" "" []).Name = "myapp" ∧
    ((appNamed "myapp" "" []).Setup exampleAppEnv).HelpName = "prog" ∧
    ((appNamed "myapp" "" []).Setup exampleAppEnv).Name = "myapp" := by
  refine ⟨?_, rfl, by decide, by decide⟩
  intro env a hd hh
  unfold App.Setup
  simp only [hd, Bool.false_eq_true, if_false]
  rw [setupHelp_helpName, setupHooks_helpName]
  simp [App.setupTexts, hh]

/-! ## `App.Setup`, called twice -/

theorem setupHelp_didSetup (env : AppEnv) (a : App) :
    (App.setupHelp env a).didSetup = a.didSetup := by
  simp only [App.setupHelp]
  split <;> rfl

theorem setup_didSetup (env : AppEnv) (a : App) : (a.Setup env).didSetup = true := by
  unfold App.Setup
  cases h : a.didSetup with
  | true => simp only [if_true, h]
  | false =>
    simp only [Bool.false_eq_true, if_false]
    rw [setupHelp_didSetup]
    rfl

/-- C21. For every `App`, a second call of `Setup` changes nothing: the `App`
after two calls is, field by field, the `App` after one call, the list of
commands with its length and order included.  For an `App` named `myapp` with
the one command `run`, the first call appends the help command and the second
call leaves the two commands as they are. -/
theorem setup_twice_is_setup_once :
    (∀ (env env2 : AppEnv) (a : App), (a.Setup env).Setup env2 = a.Setup env) ∧
    (∀ (env env2 : AppEnv) (a : App),
      ((a.Setup env).Setup env2).Commands = (a.Setup env).Commands) ∧
    (appNamed "myapp" "" [⟨"run", [], ""⟩]).Commands.length = 1 ∧
    (((appNamed "myapp" "" [⟨"run", [], ""⟩]).Setup exampleAppEnv).Setup exampleAppEnv).Commands
      = [⟨"run", [], "prog run"⟩, ⟨"help", ["h"], ""⟩] := by
  have h : ∀ (env env2 : AppEnv) (a : App), (a.Setup env).Setup env2 = a.Setup env := by
    intro env env2 a
    have hd := setup_didSetup env a
    generalize a.Setup env = b at hd
    unfold App.Setup
    simp only [hd, if_true]
  refine ⟨h, ?_, rfl, by decide⟩
  intro env env2 a
  rw [h]

/-! ## `HandleAction` -/

/-- C23, refuted as stated: an action of type `func(*Context) error` that
returns the invalid-action-type error makes `HandleAction` return that error,
after one call of the action, though the action is of one of the three types;
and a nil function of type `ActionFunc` makes `HandleAction` panic. -/
theorem handle_action_passes_on_invalid_type_error :
    HandleAction "invalid" (countingAction (some "invalid")) () 0
      = .returned (1, some "invalid") ∧
    HandleAction "invalid" (.ActionFunc none : ActionValue Unit Nat String) () 0
      = .panicked := by
  decide

/-- C23, amended. `HandleAction` returns the invalid-action-type error when
the action is none of `ActionFunc`, `func(*Context) error` and
`func(*Context)`, without touching the state; for a non-nil action of one of
the two error-returning types it returns what one call of the action with the
given context returns, and for a non-nil `func(*Context)` it returns nil
after one call of the action; a nil function of one of the three types makes
it panic.  So it returns the invalid-action-type error only when the action
is of no such type or a call of the action itself returned that error. -/
theorem handle_action_dispatches_on_type {κ σ ε : Type} (errInvalidActionType : ε)
    (context : κ) (s : σ) :
    HandleAction errInvalidActionType (.other : ActionValue κ σ ε) context s
      = .returned (s, some errInvalidActionType) ∧
    (∀ a : κ → σ → σ × Option ε,
      HandleAction errInvalidActionType (.ActionFunc (some a)) context s
        = .returned (a context s) ∧
      HandleAction errInvalidActionType (.funcError (some a)) context s
        = .returned (a context s)) ∧
    (∀ a : κ → σ → σ,
      HandleAction errInvalidActionType (.funcVoid (some a) : ActionValue κ σ ε) context s
        = .returned (a context s, none)) ∧
    (HandleAction errInvalidActionType (.ActionFunc none : ActionValue κ σ ε) context s
        = .panicked ∧
      HandleAction errInvalidActionType (.funcError none : ActionValue κ σ ε) context s
        = .panicked ∧
      HandleAction errInvalidActionType (.funcVoid none : ActionValue κ σ ε) context s
        = .panicked) ∧
    (∀ (action : ActionValue κ σ ε) (s2 : σ),
      HandleAction errInvalidActionType action context s
        = .returned (s2, some errInvalidActionType) →
      action = .other ∨
      ∃ a : κ → σ → σ × Option ε,
        (action = .ActionFunc (some a) ∨ action = .funcError (some a)) ∧
        a context s = (s2, some errInvalidActionType)) := by
  refine ⟨rfl, fun a => ⟨rfl, rfl⟩, fun a => rfl, ⟨rfl, rfl, rfl⟩, ?_⟩
  intro action s2 h
  cases action with
  | ActionFunc a =>
    cases a with
    | none => simp [HandleAction] at h
    | some a =>
      simp only [HandleAction, Outcome.returned.injEq] at h
      exact Or.inr ⟨a, Or.inl rfl, h⟩
  | funcError a =>
    cases a with
    | none => simp [HandleAction] at h
    | some a =>
      simp only [HandleAction, Outcome.returned.injEq] at h
      exact Or.inr ⟨a, Or.inr rfl, h⟩
  | funcVoid a =>
    cases a with
    | none => simp [HandleAction] at h
    | some a => simp [HandleAction] at h
  | other => exact Or.inl rfl

/-! ## A failing `Set`, by the state of the cell -/

/-- C24. When `Set(raw)` returns an error on a cell whose `hasBeenSet` is
true, the cell is exactly as before the call, `Value()` and `hasBeenSet`
included; a failing `Set` changes the cell only when `hasBeenSet` is false,
and then the contents become empty and `hasBeenSet` becomes true. -/
theorem failing_set_changes_only_unset_cell (rt : Runtime) (f : IntSlice) (raw : String)
    (herr : (f.Set rt raw).2 ≠ none) :
    (f.hasBeenSet = true →
      (f.Set rt raw).1 = f ∧ (f.Set rt raw).1.Value = f.Value ∧
      (f.Set rt raw).1.hasBeenSet = f.hasBeenSet) ∧
    ((f.Set rt raw).1 ≠ f → f.hasBeenSet = false) ∧
    (f.hasBeenSet = false →
      (f.Set rt raw).1.Value = some [] ∧ (f.Set rt raw).1.hasBeenSet = true) := by
  rw [Set_of_error rt f raw herr]
  refine ⟨?_, ?_, ?_⟩
  · intro hb
    simp [hb]
  · intro hne
    cases hb : f.hasBeenSet with
    | false => rfl
    | true => exact absurd (by simp [hb]) hne
  · intro hb
    simp [hb, IntSlice.Value]

/-- C24, at the cell holding `4, 5` after an earlier `Set` and the raw string
`x`: the failing `Set` leaves `4, 5` and `hasBeenSet` true. -/
theorem failing_set_changes_only_unset_cell_witness :
    ((⟨some [4, 5], true⟩ : IntSlice).Set exampleRuntime "x").2 ≠ none ∧
    ((⟨some [4, 5], true⟩ : IntSlice).Set exampleRuntime "x").1 = ⟨some [4, 5], true⟩ :=
  ⟨by decide,
    ((failing_set_changes_only_unset_cell exampleRuntime ⟨some [4, 5], true⟩ "x"
      (by decide)).1 rfl).1⟩

/-! ## `Timestamp.SetTimestamp` -/

/-- C25. `SetTimestamp` is first-write-wins: on a cell whose `hasBeenSet` is
false it stores the given time and sets `hasBeenSet`, and on a cell whose
`hasBeenSet` is true it changes nothing; so it changes nothing after an
earlier `SetTimestamp` or after a successful `Set`.  A successful `Set(raw)`
stores the parsed time whatever the cell held, a time stored by
`SetTimestamp` included. -/
theorem set_timestamp_is_first_write_wins {τ : Type} (lib : TimeLib τ) :
    (∀ (t : Timestamp τ) (v : τ), t.hasBeenSet = false →
      t.SetTimestamp v = { t with timestamp := some v, hasBeenSet := true }) ∧
    (∀ (t : Timestamp τ) (v : τ), t.hasBeenSet = true → t.SetTimestamp v = t) ∧
    (∀ (t : Timestamp τ) (v w : τ), (t.SetTimestamp v).SetTimestamp w = t.SetTimestamp v) ∧
    (∀ (t : Timestamp τ) (raw : String) (w : τ), (t.Set lib raw).2 = none →
      (t.Set lib raw).1.SetTimestamp w = (t.Set lib raw).1) ∧
    (∀ (t : Timestamp τ) (v x : τ) (raw : String),
      lib.Parse (t.SetTimestamp v).layout raw = .ok x →
      ((t.SetTimestamp v).Set lib raw).2 = none ∧
      ((t.SetTimestamp v).Set lib raw).1.Value = some x ∧
      ((t.SetTimestamp v).Set lib raw).1.hasBeenSet = true) := by
  have hset : ∀ (t : Timestamp τ) (v : τ), t.hasBeenSet = true → t.SetTimestamp v = t := by
    intro t v h
    simp [Timestamp.SetTimestamp, h]
  have hafter : ∀ (t : Timestamp τ) (v : τ), (t.SetTimestamp v).hasBeenSet = true := by
    intro t v
    cases h : t.hasBeenSet <;> simp [Timestamp.SetTimestamp, h]
  refine ⟨?_, hset, ?_, ?_, ?_⟩
  · intro t v h
    simp [Timestamp.SetTimestamp, h]
  · intro t v w
    exact hset _ w (hafter t v)
  · intro t raw w h
    apply hset
    unfold Timestamp.Set at h ⊢
    cases hp : lib.Parse t.layout raw with
    | error e => rw [hp] at h; simp at h
    | ok x => rfl
  · intro t v x raw h
    simp [Timestamp.Set, h, Timestamp.Value]

/-! ## `Apply` on a descriptor without a value -/

/-- C26, at a failing input: an `IntSliceFlag` (`Int64SliceFlag`) named `n`
declared with no `Value` and no environment variable, and a `TimestampFlag`
alike, applied to an empty flag set.  `Apply` does not complete: its
registration loop hands the nil cell to `set.Var`, which calls `String()` on
it and panics.  With a cell in place, the same `Apply` returns. -/
theorem apply_without_value_panics :
    (intSliceFlag "n" [] [] none).Value = none ∧
    (intSliceFlag "n" [] [] none).Apply exampleRuntime ⟨[], []⟩ = .panicked ∧
    (timestampFlag "n" [] [] none).Apply exampleRuntime exampleTime ⟨[], []⟩ = .panicked ∧
    (intSliceFlag "n" [] [] (some 0)).Apply exampleRuntime ⟨[NewIntSlice []], []⟩
      ≠ .panicked :=
  ⟨rfl, by decide, rfl, by decide⟩

end Cli
